import Mathlib

/-!
Verification development for the CRTS Blender exporter (`crts_export.py`).

The Python source is shallowly embedded below.  Machine floats that only
flow through the file as attribute values (vertex positions, uvs, split
normals, image bytes) are modelled by their IEEE-754 single precision bit
pattern (`F32`), together with Python's `==` on floats (`pyEq`), which is
IEEE numeric equality: it identifies +0.0 with -0.0 and makes NaN unequal
to everything including itself.  Python dicts keyed by float tuples are
modelled as association lists looked up with `pyEq` (the CPython identity
shortcut never fires here because the source rebuilds the key tuples from
fresh float objects on every loop iteration).  Quantities the code does
arithmetic on (matrices, light energy, material scalars) are modelled over
`ℚ`; byte counts over `ℕ`.  Out-of-range list indexing (which would raise
`IndexError` in Python) is modelled with `getD`; the theorems that depend
on indexing carry well-formedness hypotheses under which the defaults are
never reached.  Dictionary indexing that can actually fail on reachable
inputs (`image_indices[...]`, `material_indices[...]`) and float division
by zero are modelled in `Except`, mirroring the exceptions the source can
raise.
-/

/-- IEEE-754 binary32 bit pattern: sign, 8-bit exponent, 23-bit fraction.
Two patterns are the same float object state iff they are structurally
equal; numeric comparison is `pyEq` below. -/
structure F32 where
  sign : Bool
  exp : Nat
  frac : Nat
deriving DecidableEq, Inhabited

/-- NaN: maximal exponent with nonzero fraction. -/
def F32.isNaN (x : F32) : Bool := x.exp == 255 && x.frac != 0

/-- A (positive or negative) zero. -/
def F32.isZero (x : F32) : Bool := x.exp == 0 && x.frac == 0

/-- Python `==` on floats (IEEE numeric equality): NaN is unequal to
everything, +0.0 equals -0.0, and otherwise two binary32 patterns are
numerically equal exactly when they are bit-identical. -/
def pyEq (x y : F32) : Bool :=
  if x.isNaN || y.isNaN then false
  else if x.isZero && y.isZero then true
  else decide (x = y)

abbrev UVv := F32 × F32
abbrev NVec := F32 × F32 × F32

/-- Python `==` on a 2-tuple of floats. -/
def pyEqUV (a b : UVv) : Bool := pyEq a.1 b.1 && pyEq a.2 b.2

/-- Python `==` on a 3-tuple of floats. -/
def pyEqN (a b : NVec) : Bool := pyEq a.1 b.1 && pyEq a.2.1 b.2.1 && pyEq a.2.2 b.2.2

/-- The bit pattern as an unsigned 32-bit integer. -/
def f32ToBits (x : F32) : Nat := (if x.sign then 2 ^ 31 else 0) + x.exp * 2 ^ 23 + x.frac

/-- `struct.pack` little-endian: `n` bytes of `v`. -/
def packLE (n : Nat) (v : Nat) : List Nat :=
  (List.range n).map (fun i => v / 256 ^ i % 256)

/-- `struct.pack("<f", ·)`: 4 little-endian bytes of the bit pattern. -/
def packF32 (x : F32) : List Nat := packLE 4 (f32ToBits x)

/-- Lookup in a Python dict keyed by float tuples: the first entry whose
key compares `==`-equal to the query. -/
def repLookup (eq : α → α → Bool) (mp : List (α × Nat)) (v : α) : Option Nat :=
  (mp.find? (fun p => eq p.1 v)).map (·.2)

/-- The source pattern
`if v not in mp: mp[v] = l; i = l else: i = mp[v]`
for the uv / normal representative-loop dicts: returns the resulting
index and the updated dict. -/
def repStep (eq : α → α → Bool) (mp : List (α × Nat)) (v : α) (l : Nat) :
    Int × List (α × Nat) :=
  match repLookup eq mp v with
  | none => ((l : Int), mp ++ [(v, l)])
  | some i => ((i : Int), mp)

/-- Dedup key `(vert_idx, uv_idx, n_idx)` as built by the source. -/
abbrev VKey := Nat × Int × Int

/-- Lookup in the `unique_verts` dict (keys are int tuples, so Python `==`
is structural equality). -/
def lookupKey (mp : List (VKey × Nat)) (k : VKey) : Option Nat :=
  (mp.find? (fun p => decide (p.1 = k))).map (·.2)

/-- One mesh of `bpy.data.meshes`, restricted to the fields the exporter
reads (after `calc_loop_triangles` / `calc_normals_split`, which only
populate `loop_triangles` and the split normals and are therefore no-ops
here).  `loops_vertex_index l` models `mesh.loops[l].vertex_index`,
`loops_normal l` models `mesh.loops[l].normal`, and `uv_layers` is the
active uv layer's per-loop data (`none` when `len(mesh.uv_layers) == 0`).
`materials` is the list of assigned material slots. -/
structure Mesh where
  name : String
  users : Nat
  materials : List String
  vertices : List NVec
  loops_vertex_index : List Nat
  loops_normal : List NVec
  uv_layers : Option (List UVv)
  loop_triangles : List (Nat × Nat × Nat)

/-- The triangle corners in iteration order: `for t in mesh.loop_triangles:
for l in t.loops`. -/
def Mesh.corners (m : Mesh) : List Nat :=
  m.loop_triangles.flatMap (fun t => [t.1, t.2.1, t.2.2])

/-- `uvdata[l].uv` as a total function (out-of-range access would raise
in Python; all theorems only evaluate it at in-range loops or state
facts invariant under the default). -/
def uvAt (d : List UVv) (l : Nat) : UVv := d.getD l default

/-- `mesh.loops[l].normal` as a total function. -/
def nAt (m : Mesh) (l : Nat) : NVec := m.loops_normal.getD l default

/-- State of the per-corner dedup loop: the four dicts and the two output
lists built by `write_mesh_buffers` (of which `compute_mesh_buffer_sizes`
only maintains `unique_verts`, `uvs` and `normals`; the extra lists do not
influence them, see `unique_verts_length_eq_vertex_list`). -/
structure DedupState where
  unique_verts : List (VKey × Nat)
  vertex_list : List VKey
  vertex_indices : List Nat
  uvs : List (UVv × Nat)
  normals : List (NVec × Nat)

def DedupState.init : DedupState := ⟨[], [], [], [], []⟩

/-- The loop body shared verbatim by `compute_mesh_buffer_sizes` and
`write_mesh_buffers` in the source (the two Python functions duplicate
this loop literally).  In the source the fresh-id branch uses
`len(unique_verts)` in one copy and `len(vertex_list)` in the other;
these are always equal (`unique_verts_length_eq_vertex_list`). -/
def dedupCorner (m : Mesh) (st : DedupState) (l : Nat) : DedupState :=
  let vert_idx := m.loops_vertex_index.getD l 0
  let uvres : Int × List (UVv × Nat) :=
    match m.uv_layers with
    | some uvdata => repStep pyEqUV st.uvs (uvAt uvdata l) l
    | none => (-1, st.uvs)
  let nres := repStep pyEqN st.normals (nAt m l) l
  let idx : VKey := (vert_idx, uvres.1, nres.1)
  match lookupKey st.unique_verts idx with
  | none =>
    { unique_verts := st.unique_verts ++ [(idx, st.vertex_list.length)]
      vertex_list := st.vertex_list ++ [idx]
      vertex_indices := st.vertex_indices ++ [st.vertex_list.length]
      uvs := uvres.2
      normals := nres.2 }
  | some vid =>
    { st with vertex_indices := st.vertex_indices ++ [vid], uvs := uvres.2, normals := nres.2 }

/-- Run the dedup loop over all corners of a mesh. -/
def runDedup (m : Mesh) : DedupState :=
  m.corners.foldl (dedupCorner m) DedupState.init

/-- `compute_mesh_buffer_sizes`: returns
`(positions, indices, uvs, normals)` byte sizes. -/
def compute_mesh_buffer_sizes (m : Mesh) : Nat × Nat × Nat × Nat :=
  let st := runDedup m
  let n_verts := st.unique_verts.length
  let uvs_size := if st.uvs.length > 0 then n_verts * 2 * 4 else 0
  (n_verts * 3 * 4, m.loop_triangles.length * 3 * 4, uvs_size, n_verts * 3 * 4)

/-- `write_mesh_buffers`: the payload bytes for one mesh, in source order
positions, indices, uvs (only with a uv layer), normals. -/
def write_mesh_buffers (m : Mesh) : List Nat :=
  let st := runDedup m
  (st.vertex_list.flatMap (fun v =>
    let vert := m.vertices.getD v.1 default
    packF32 vert.1 ++ packF32 vert.2.1 ++ packF32 vert.2.2)) ++
  (st.vertex_indices.flatMap (fun id => packLE 4 id)) ++
  (match m.uv_layers with
   | some uvdata => st.vertex_list.flatMap (fun v =>
      let uv := uvAt uvdata v.2.1.toNat
      packF32 uv.1 ++ packF32 uv.2)
   | none => []) ++
  (st.vertex_list.flatMap (fun v =>
    let nrm := nAt m v.2.2.toNat
    packF32 nrm.1 ++ packF32 nrm.2.1 ++ packF32 nrm.2.2))

/-- One buffer view record of the header. -/
structure BufferView where
  byte_offset : Nat
  byte_length : Nat
  type : String
deriving DecidableEq

/-- One mesh record of the header.  `texcoords` / `normals` are present
exactly when the source writes the corresponding keys (view index `!= -1`;
`positions` and `indices` are always written). -/
structure MeshInfo where
  name : String
  positions : Int
  indices : Int
  texcoords : Option Int
  normals : Option Int
deriving DecidableEq

/-- One image record of the header. -/
structure ImageInfo where
  name : String
  view : Nat
  type : String
  color_space : String
deriving DecidableEq

/-- A value stored under one key of a material record. -/
inductive MatField where
  | str : String → MatField
  | color : ℚ × ℚ × ℚ → MatField
  | num : ℚ → MatField
  | tex : Nat → MatField
  | chanTex : Nat → Nat → MatField
deriving DecidableEq

/-- A material record: the JSON object as an ordered key/value list. -/
abbrev MatRecord := List (String × MatField)

/-- One object record of the header; optional fields are present exactly
for the object type that writes them. -/
structure ObjData where
  name : String
  type : String
  matrix : List ℚ
  material : Option Int
  mesh : Option Nat
  color : Option (ℚ × ℚ × ℚ)
  energy : Option ℚ
  size : Option (ℚ × ℚ)
  fov_y : Option ℚ

/-- The header dict built by `export_crts`. -/
structure Header where
  meshes : List MeshInfo
  objects : List ObjData
  buffer_views : List BufferView
  materials : List MatRecord
  images : List ImageInfo

/-- Lookup in a `str -> int` Python dict (`mesh_indices`,
`image_indices`, `material_indices`).  Blender keeps these names unique,
so first-match lookup coincides with dict semantics. -/
def lookupStr (mp : List (String × Nat)) (k : String) : Option Nat :=
  (mp.find? (fun p => p.1 == k)).map (·.2)

/-- The body of the `write_mesh_info` loop for one mesh with `users != 0`:
appends the mesh's buffer views and mesh record to the header and returns
it with the advanced byte offset. -/
def write_one_mesh (m : Mesh) (h : Header) (byte_offset : Nat) : Header × Nat :=
  let s := compute_mesh_buffer_sizes m
  let verts_size := s.1
  let indices_size := s.2.1
  let uvs_size := s.2.2.1
  let normals_size := s.2.2.2
  let positions_view : Int := (h.buffer_views.length : Int)
  let h : Header := { h with buffer_views := h.buffer_views ++ [⟨byte_offset, verts_size, "VEC3_F32"⟩] }
  let byte_offset := byte_offset + verts_size
  let indices_view : Int := positions_view + 1
  let h : Header := { h with buffer_views := h.buffer_views ++ [⟨byte_offset, indices_size, "VEC3_U32"⟩] }
  let byte_offset := byte_offset + indices_size
  let uvres : Int × Header × Nat :=
    if uvs_size > 0 then
      (indices_view + 1,
       { h with buffer_views := h.buffer_views ++ [⟨byte_offset, uvs_size, "VEC2_F32"⟩] },
       byte_offset + uvs_size)
    else (-1, h, byte_offset)
  let uvs_view := uvres.1
  let h := uvres.2.1
  let byte_offset := uvres.2.2
  let nres : Int × Header × Nat :=
    if normals_size > 0 then
      (uvs_view + 1,
       { h with buffer_views := h.buffer_views ++ [⟨byte_offset, normals_size, "VEC3_F32"⟩] },
       byte_offset + normals_size)
    else (-1, h, byte_offset)
  let normals_view := nres.1
  let h := nres.2.1
  let byte_offset := nres.2.2
  let mesh_info : MeshInfo :=
    { name := m.name
      positions := positions_view
      indices := indices_view
      texcoords := if uvs_view != -1 then some uvs_view else none
      normals := if normals_view != -1 then some normals_view else none }
  ({ h with meshes := h.meshes ++ [mesh_info] }, byte_offset)

/-- `write_mesh_info` loop, threading the `mesh_indices` dict explicitly.
The source records `mesh_indices[mesh.name] = len(header["meshes"])` just
before appending the mesh record. -/
def write_mesh_info_aux :
    List Mesh → Header → Nat → List (String × Nat) → Nat × List (String × Nat) × Header
  | [], h, byte_offset, acc => (byte_offset, acc, h)
  | m :: rest, h, byte_offset, acc =>
    if m.users == 0 then write_mesh_info_aux rest h byte_offset acc
    else
      let r := write_one_mesh m h byte_offset
      write_mesh_info_aux rest r.1 r.2 (acc ++ [(m.name, h.meshes.length)])

/-- `write_mesh_info(meshes, header, byte_offset)`. -/
def write_mesh_info (meshes : List Mesh) (h : Header) (byte_offset : Nat) :
    Nat × List (String × Nat) × Header :=
  write_mesh_info_aux meshes h byte_offset []

/-- One image of `bpy.data.images`.  `packed_file` carries the packed
bytes (`packed_file.size` is their length in Blender's API); `disk` is
the content of the file at `filepath_from_user()` when that path names an
existing file (`os.path.isfile`), and `none` otherwise — an existing file
always has a nonempty path, so the writer's extra `len(path) > 0` test is
subsumed. -/
structure Image where
  name : String
  users : Nat
  source : String
  packed_file : Option (List Nat)
  disk : Option (List Nat)
  colorspace : String
  file_format : String

/-- `write_image_info` loop.  The byte length comes from
`packed_file.size` for packed images, else from `os.path.getsize`; images
with a non-`FILE` source, and unpacked images whose path is not a file,
are skipped. -/
def write_image_info_aux :
    List Image → Header → Nat → List (String × Nat) → Nat × List (String × Nat) × Header
  | [], h, byte_offset, acc => (byte_offset, acc, h)
  | img :: rest, h, byte_offset, acc =>
    if img.users == 0 then write_image_info_aux rest h byte_offset acc
    else if img.source != "FILE" then write_image_info_aux rest h byte_offset acc
    else
      match (match img.packed_file with
             | some pf => some pf.length
             | none => (img.disk.map (·.length)) : Option Nat) with
      | none => write_image_info_aux rest h byte_offset acc
      | some img_bytes =>
        let view := h.buffer_views.length
        let h : Header := { h with buffer_views := h.buffer_views ++ [⟨byte_offset, img_bytes, "UINT_8"⟩] }
        let acc := acc ++ [(img.name, h.images.length)]
        let color_space := if img.colorspace != "sRGB" then "LINEAR" else "sRGB"
        let h : Header := { h with images := h.images ++ [⟨img.name, view, img.file_format, color_space⟩] }
        write_image_info_aux rest h (byte_offset + img_bytes) acc

/-- `write_image_info(images, header, byte_offset)` (the source body
iterates `bpy.data.images`, which is what it is passed). -/
def write_image_info (images : List Image) (h : Header) (byte_offset : Nat) :
    Nat × List (String × Nat) × Header :=
  write_image_info_aux images h byte_offset []

/-- The image half of the payload write pass in `export_crts`
(lines 347-357): packed data, else the on-disk file when the path is a
nonempty existing file.  Note: unlike `write_image_info`, this pass never
tests `img.source`. -/
def image_payload (images : List Image) : List Nat :=
  images.flatMap (fun img =>
    if img.users == 0 then []
    else match img.packed_file with
      | some pf => pf
      | none => match img.disk with
        | some bytes => bytes
        | none => [])

/-- The mesh half of the payload write pass in `export_crts`
(lines 339-345). -/
def mesh_payload (meshes : List Mesh) : List Nat :=
  meshes.flatMap (fun m => if m.users == 0 then [] else write_mesh_buffers m)

/-- A link into a Principled-BSDF input socket.  `image_name` models the
image reached through the link: `texture.image.name` when the upstream
node is an image texture, or
`from_node.inputs["Image"].links[0].from_node.image.name` when it is a
Separate-RGB node (whose `Image` input is assumed wired — an unwired one
would raise `IndexError` in `get_seprgb_texture_info`, a path no claim
touches). -/
structure Link where
  from_node_type : String
  from_socket_type : String
  from_socket_name : String
  image_name : String

/-- One input socket of the Principled BSDF node.  `default_color` is
read only for "Base Color", `default_value` only for the scalar inputs. -/
structure NodeInput where
  name : String
  default_color : ℚ × ℚ × ℚ
  default_value : ℚ
  links : List Link

/-- One material of `bpy.data.materials`.  `principled` holds the inputs
of the first `BSDF_PRINCIPLED` node of the node tree; `none` covers both
a missing node tree and a tree without such a node. -/
structure Material where
  name : String
  users : Nat
  principled : Option (List NodeInput)

/-- `get_seprgb_texture_info(link)`: `None` unless the link comes from a
Separate-RGB node; otherwise the upstream image name and the channel
decoded from the socket name (anything but "R"/"G" maps to 2). -/
def get_seprgb_texture_info (link : Link) : Option (String × Nat) :=
  if link.from_node_type != "SEPRGB" then none
  else
    let channel := if link.from_socket_name == "R" then 0
      else if link.from_socket_name == "G" then 1 else 2
    some (link.image_name, channel)

def export_param_list : List String :=
  ["Metallic", "Specular", "Specular Tint", "Roughness",
   "Anisotropic", "Sheen", "Sheen Tint", "Clearcoat", "Clearcoat Roughness",
   "IOR", "Transmission"]

/-- `i.name.lower().replace(" ", "_")`. -/
def jsonNameOf (s : String) : String := (s.toLower).replace " " "_"

/-- The `for i in principled_node.inputs` loop of `write_material_info`,
building up the material record.  `image_indices[tex_info[0].name]` on a
scalar texture raises `KeyError` when the image was never indexed; the
base-color branch instead guards with an `in` test. -/
def material_input_fields (image_indices : List (String × Nat)) :
    List NodeInput → MatRecord → Except String MatRecord
  | [], mat => .ok mat
  | i :: rest, mat =>
    if i.name == "Base Color" then
      let mat := mat ++ [("base_color", .color i.default_color)]
      match i.links with
      | [] => material_input_fields image_indices rest mat
      | link :: _ =>
        if link.from_node_type != "TEX_IMAGE" || link.from_socket_type != "RGBA" then
          material_input_fields image_indices rest mat
        else match lookupStr image_indices link.image_name with
          | some idx =>
            material_input_fields image_indices rest (mat ++ [("base_color_texture", .tex idx)])
          | none => material_input_fields image_indices rest mat
    else if i.name ∈ export_param_list then
      let json_name := jsonNameOf i.name
      let mat := mat ++ [(json_name, .num i.default_value)]
      match i.links with
      | [] => material_input_fields image_indices rest mat
      | link :: _ =>
        match get_seprgb_texture_info link with
        | none => material_input_fields image_indices rest mat
        | some ti =>
          match lookupStr image_indices ti.1 with
          | some t =>
            material_input_fields image_indices rest
              (mat ++ [(json_name ++ "_texture", .chanTex t ti.2)])
          | none => .error "KeyError"
    else material_input_fields image_indices rest mat

/-- `write_material_info` loop: materials with no users or no Principled
BSDF node are skipped (the latter with a printed diagnostic);
`material_indices[m.name]` is recorded before the record is appended. -/
def write_material_info_aux (image_indices : List (String × Nat)) :
    List Material → Header → List (String × Nat) →
    Except String (List (String × Nat) × Header)
  | [], h, acc => .ok (acc, h)
  | m :: rest, h, acc =>
    if m.users == 0 then write_material_info_aux image_indices rest h acc
    else match m.principled with
      | none => write_material_info_aux image_indices rest h acc
      | some inputs =>
        let acc := acc ++ [(m.name, h.materials.length)]
        match material_input_fields image_indices inputs [("name", .str m.name)] with
        | .error e => .error e
        | .ok mat =>
          write_material_info_aux image_indices rest
            { h with materials := h.materials ++ [mat] } acc

/-- `write_material_info(materials, header, image_indices)`. -/
def write_material_info (materials : List Material) (h : Header)
    (image_indices : List (String × Nat)) :
    Except String (List (String × Nat) × Header) :=
  write_material_info_aux image_indices materials h []

/-- `light.color`, `light.energy`, `light.size`, `light.size_y`,
`light.type` of an object's light data-block (the size fields exist on
area lights; the source reads them for every light type). -/
structure LightData where
  type : String
  color : ℚ × ℚ × ℚ
  energy : ℚ
  size : ℚ
  size_y : ℚ

/-- What an object resolves to.  For a MESH object: the active material's
name (`none` when `o.active_material` is falsy) and `o.data.name`; for a
CAMERA: `math.degrees(cam.angle_y)` — the radians-to-degrees conversion
is an irrational scaling performed by the host's `math` module, so the
model carries the angle already in degrees. -/
inductive ObjKind where
  | mesh : Option String → String → ObjKind
  | light : LightData → ObjKind
  | camera : ℚ → ObjKind
  | other : String → ObjKind

/-- One object of `scene.objects`. -/
structure SceneObject where
  name : String
  kind : ObjKind
  matrix_world : Matrix (Fin 4) (Fin 4) ℚ

/-- `o.type`. -/
def SceneObject.typeName (o : SceneObject) : String :=
  match o.kind with
  | .mesh _ _ => "MESH"
  | .light _ => "LIGHT"
  | .camera _ => "CAMERA"
  | .other s => s

/-- `mathutils.Matrix.Rotation(math.radians(-90), 4, "X")`, the 4x4
rotation by -90 degrees about X (modelled exactly; mathutils stores the
float32 image of these entries). -/
def rotNeg90X : Matrix (Fin 4) (Fin 4) ℚ :=
  !![1, 0, 0, 0; 0, 0, 1, 0; 0, -1, 0, 0; 0, 0, 0, 1]

/-- `tfm = (Matrix.Rotation(radians(-90), 4, "X") @ o.matrix_world).transposed()`. -/
def object_tfm (world : Matrix (Fin 4) (Fin 4) ℚ) : Matrix (Fin 4) (Fin 4) ℚ :=
  (rotNeg90X * world).transpose

/-- The 16-element `"matrix"` array: the entries `tfm[0][0] .. tfm[3][3]`
exactly as listed in the source. -/
def object_matrix_list (world : Matrix (Fin 4) (Fin 4) ℚ) : List ℚ :=
  let tfm := object_tfm world
  [tfm 0 0, tfm 0 1, tfm 0 2, tfm 0 3,
   tfm 1 0, tfm 1 1, tfm 1 2, tfm 1 3,
   tfm 2 0, tfm 2 1, tfm 2 2, tfm 2 3,
   tfm 3 0, tfm 3 1, tfm 3 2, tfm 3 3]

/-- The body of the `write_object_info` loop for one object: `none` for
an unhandled type (record omitted), `Except.error` for the exceptions the
source can raise: `material_indices[...]` / `mesh_indices[...]` on a
missing key, and `ZeroDivisionError` from
`light.energy / (light.size * light.size_y)`. -/
def write_one_object (o : SceneObject) (material_indices mesh_indices : List (String × Nat)) :
    Except String (Option ObjData) :=
  let base : ObjData :=
    { name := o.name, type := o.typeName, matrix := object_matrix_list o.matrix_world
      material := none, mesh := none, color := none, energy := none, size := none, fov_y := none }
  match o.kind with
  | .mesh active_material data_name =>
    match (match active_material with
           | none => Except.ok (-1 : Int)
           | some mname =>
             match lookupStr material_indices mname with
             | some i => Except.ok (i : Int)
             | none => Except.error "KeyError" : Except String Int) with
    | .error e => .error e
    | .ok mat_id =>
      match lookupStr mesh_indices data_name with
      | none => .error "KeyError"
      | some mid => .ok (some { base with material := some mat_id, mesh := some mid })
  | .light light =>
    if light.size * light.size_y = 0 then .error "ZeroDivisionError"
    else .ok (some { base with
      color := some light.color
      energy := some (light.energy / (light.size * light.size_y))
      size := some (light.size, light.size_y) })
  | .camera fov => .ok (some { base with fov_y := some fov })
  | .other _ => .ok none

/-- `write_object_info(objects, header, material_indices, mesh_indices)`. -/
def write_object_info (objects : List SceneObject) (h : Header)
    (material_indices mesh_indices : List (String × Nat)) : Except String Header :=
  match objects with
  | [] => .ok h
  | o :: rest =>
    match write_one_object o material_indices mesh_indices with
    | .error e => .error e
    | .ok none => write_object_info rest h material_indices mesh_indices
    | .ok (some obj_data) =>
      write_object_info rest { h with objects := h.objects ++ [obj_data] }
        material_indices mesh_indices

/-- The data sources `export_crts` reads: `bpy.data.meshes`,
`bpy.data.images`, `bpy.data.materials` and `scene.objects`. -/
structure Scene where
  meshes : List Mesh
  images : List Image
  materials : List Material
  objects : List SceneObject

/-- The written file: the header (serialized as length-prefixed JSON,
whose textual encoding no claim touches) followed by the payload bytes. -/
structure CrtsFile where
  header : Header
  payload : List Nat

/-- Outcome of `export_crts`: `CANCELLED` (reported before the output
file is opened), a finished file, or an uncaught exception raised before
the file is opened (all exceptions modelled here arise in the walking
stages, which run before `open`). -/
inductive ExportResult where
  | cancelled : ExportResult
  | finished : CrtsFile → ExportResult
  | error : String → ExportResult

/-- `export_crts`: the up-front multi-material validation pass, the four
planning/walking stages, then the payload write pass. -/
def export_crts (scene : Scene) : ExportResult :=
  if scene.meshes.any (fun m => !(m.users == 0) && decide (m.materials.length > 1)) then
    .cancelled
  else
    let h0 : Header := ⟨[], [], [], [], []⟩
    let r1 := write_mesh_info scene.meshes h0 0
    let mesh_indices := r1.2.1
    let r2 := write_image_info scene.images r1.2.2 r1.1
    let image_indices := r2.2.1
    match write_material_info scene.materials r2.2.2 image_indices with
    | .error e => .error e
    | .ok m3 =>
      match write_object_info scene.objects m3.2 m3.1 mesh_indices with
      | .error e => .error e
      | .ok h4 =>
        .finished ⟨h4, mesh_payload scene.meshes ++ image_payload scene.images⟩

/-! ### Spec-side definitions and fixtures -/

/-- Spec-side reading of the buffer-view invariant: each view starts
exactly where the previous one ended, beginning at `off`. -/
def contiguousFrom (off : Nat) : List BufferView → Bool
  | [] => true
  | v :: vs => v.byte_offset == off && contiguousFrom (off + v.byte_length) vs

/-- The running byte offset after laying out `vs` starting at `off`. -/
def chainEnd (off : Nat) : List BufferView → Nat
  | [] => off
  | v :: vs => chainEnd (off + v.byte_length) vs

/-- Spec-side reading of the matrix convention: a 4x4 matrix flattened
row by row. -/
def flattenRows (M : Matrix (Fin 4) (Fin 4) ℚ) : List ℚ :=
  (List.finRange 4).flatMap (fun i => (List.finRange 4).map (fun j => M i j))

/-- No uv or normal attribute value of the mesh is a NaN (the default
bit pattern used out of range is not a NaN either). -/
def Mesh.noNaNB (m : Mesh) : Bool :=
  (match m.uv_layers with
   | some d => d.all (fun uv => !uv.1.isNaN && !uv.2.isNaN)
   | none => true) &&
  m.loops_normal.all (fun n => !n.1.isNaN && !n.2.1.isNaN && !n.2.2.isNaN)

/-- Correctness statement for one resolved corner relative to a rep-map:
the stored index is a loop whose entry is in the map and whose recorded
value is `==`-equal to the corner's own value, or is the corner's own
loop itself. -/
def RepFact (eq : α → α → Bool) (mp : List (α × Nat)) (v : α) (l : Nat) (x : Int) : Prop :=
  ∃ n : Nat, x = (n : Int) ∧ ∃ k, (k, n) ∈ mp ∧ (eq k v = true ∨ (n = l ∧ k = v))

/-- Invariant of a representative dict (`uvs` / `normals`): recorded
values are the data at the recorded loop, and no two entries hold
`==`-equal values. -/
def RepInv (eq : α → α → Bool) (d : Nat → α) (mp : List (α × Nat)) : Prop :=
  (∀ p ∈ mp, d p.2 = p.1) ∧ mp.Pairwise (fun p q => eq p.1 q.1 = false)

/-- Everything the dedup loop maintains, after processing the corners in
`done`. -/
structure DInv (m : Mesh) (done : List Nat) (st : DedupState) : Prop where
  uv_inv : ∀ d, m.uv_layers = some d → RepInv pyEqUV (uvAt d) st.uvs
  uv_nil : m.uv_layers = none → st.uvs = []
  n_inv : RepInv pyEqN (nAt m) st.normals
  uvkeys : ∀ p ∈ st.unique_verts,
    p.2 < st.vertex_list.length ∧ st.vertex_list.getD p.2 default = p.1
  allkeys : ∀ k ∈ st.vertex_list, (lookupKey st.unique_verts k).isSome
  uvlen : st.unique_verts.length = st.vertex_list.length
  nodup : st.vertex_list.Nodup
  vilen : st.vertex_indices.length = done.length
  corners_ok : ∀ j, j < done.length →
    let l := done.getD j 0
    let vid := st.vertex_indices.getD j 0
    vid < st.vertex_list.length ∧
    (st.vertex_list.getD vid default).1 = m.loops_vertex_index.getD l 0 ∧
    (m.uv_layers = none → (st.vertex_list.getD vid default).2.1 = -1) ∧
    (∀ d, m.uv_layers = some d →
      RepFact pyEqUV st.uvs (uvAt d l) l (st.vertex_list.getD vid default).2.1) ∧
    RepFact pyEqN st.normals (nAt m l) l (st.vertex_list.getD vid default).2.2

/-- 1.0f. -/
def fOne : F32 := ⟨false, 127, 0⟩

/-- +0.0f. -/
def fPz : F32 := ⟨false, 0, 0⟩

/-- -0.0f: numerically equal to `fPz`, bit-distinct from it. -/
def fNz : F32 := ⟨true, 0, 0⟩

/-- The unit Z normal (0, 0, 1). -/
def nUp : NVec := (fPz, fPz, fOne)

/-- C1 failing input: a used image with a non-`FILE` source whose path
names an existing 1-byte file — the planner skips it, the writer does
not. -/
def sceneC1 : Scene := ⟨[], [⟨"mv", 1, "MOVIE", none, some [7], "sRGB", "PNG"⟩], [], []⟩

/-- C2 failing input: one used single-triangle mesh with normals and no
uv layer. -/
def meshC2 : Mesh :=
  { name := "tri", users := 1, materials := []
    vertices := [(fPz, fPz, fPz), (fOne, fPz, fPz), (fPz, fOne, fPz)]
    loops_vertex_index := [0, 1, 2]
    loops_normal := [nUp, nUp, nUp]
    uv_layers := none
    loop_triangles := [(0, 1, 2)] }

def sceneC2 : Scene := ⟨[meshC2], [], [], []⟩

/-- C3 counterexample input: a used mesh with zero triangles. -/
def meshC3 : Mesh := ⟨"e", 1, [], [], [], [], none, []⟩

def sceneC3 : Scene := ⟨[meshC3], [], [], []⟩

/-- C3 witness input: one packed file image of one byte. -/
def sceneC3w : Scene := ⟨[], [⟨"i", 1, "FILE", some [9], none, "sRGB", "PNG"⟩], [], []⟩

/-- C4 witness input: a triangle with uvs, one repeated uv value. -/
def meshC4w : Mesh :=
  { name := "q", users := 1, materials := []
    vertices := [(fPz, fPz, fPz), (fOne, fPz, fPz), (fPz, fOne, fPz)]
    loops_vertex_index := [0, 1, 2]
    loops_normal := [nUp, nUp, nUp]
    uv_layers := some [(fPz, fPz), (fOne, fPz), (fOne, fPz)]
    loop_triangles := [(0, 1, 2)] }

/-- C5 input: corners 0 and 1 carry bit-distinct but numerically equal
uvs (+0.0 vs -0.0) on the same vertex and normal. -/
def meshC5 : Mesh :=
  { name := "t", users := 1, materials := []
    vertices := [(fPz, fPz, fPz)]
    loops_vertex_index := [0, 0, 0]
    loops_normal := [nUp, nUp, nUp]
    uv_layers := some [(fPz, fOne), (fNz, fOne), (fOne, fOne)]
    loop_triangles := [(0, 1, 2)] }

/-- C6 counterexample input: a mesh with two material slots and zero
users. -/
def sceneC6 : Scene := ⟨[⟨"mm", 0, ["a", "b"], [], [], [], none, []⟩], [], [], []⟩

/-- C6 witness input: a used mesh with two material slots. -/
def sceneC6w : Scene := ⟨[⟨"mm", 1, ["a", "b"], [], [], [], none, []⟩], [], [], []⟩

/-- C7 failing input: a used material whose "Roughness" input is linked
through a Separate-RGB node to an image that was never indexed. -/
def sceneC7 : Scene :=
  ⟨[], [], [⟨"m7", 1, some [⟨"Roughness", (0, 0, 0), 1, [⟨"SEPRGB", "VALUE", "R", "ghost"⟩]⟩]⟩], []⟩

/-- C8 counterexample input: a used mesh with a uv layer and zero
triangles. -/
def meshC8 : Mesh := ⟨"z", 1, [], [], [], [], some [], []⟩

def sceneC8 : Scene := ⟨[meshC8], [], [], []⟩

/-- The empty header `export_crts` starts from. -/
def emptyHeader : Header := ⟨[], [], [], [], []⟩

/-! ### Properties of Python float equality -/

theorem pyEq_iff {x y : F32} :
    pyEq x y = true ↔
      (x.isNaN = false ∧ y.isNaN = false ∧ (x = y ∨ (x.isZero = true ∧ y.isZero = true))) := by
  unfold pyEq
  cases hx : x.isNaN <;> cases hy : y.isNaN <;>
    cases hzx : x.isZero <;> cases hzy : y.isZero <;>
      simp [hx, hy, hzx, hzy]

theorem pyEq_true_symm {x y : F32} (h : pyEq x y = true) : pyEq y x = true := by
  rw [pyEq_iff] at h ⊢
  tauto

theorem pyEq_trans {x y z : F32} (h1 : pyEq x y = true) (h2 : pyEq y z = true) :
    pyEq x z = true := by
  rw [pyEq_iff] at h1 h2 ⊢
  obtain ⟨hx, hy, hc1⟩ := h1
  obtain ⟨hy', hz, hc2⟩ := h2
  refine ⟨hx, hz, ?_⟩
  rcases hc1 with rfl | ⟨z1, z2⟩
  · exact hc2
  · rcases hc2 with rfl | ⟨z3, z4⟩
    · exact Or.inr ⟨z1, z2⟩
    · exact Or.inr ⟨z1, z4⟩

theorem pyEq_refl {x : F32} (h : x.isNaN = false) : pyEq x x = true := by
  rw [pyEq_iff]
  exact ⟨h, h, Or.inl rfl⟩

theorem pyEqUV_true_symm {a b : UVv} (h : pyEqUV a b = true) : pyEqUV b a = true := by
  unfold pyEqUV at h ⊢
  simp only [Bool.and_eq_true] at h ⊢
  exact ⟨pyEq_true_symm h.1, pyEq_true_symm h.2⟩

theorem pyEqUV_trans {a b c : UVv} (h1 : pyEqUV a b = true) (h2 : pyEqUV b c = true) :
    pyEqUV a c = true := by
  unfold pyEqUV at h1 h2 ⊢
  simp only [Bool.and_eq_true] at h1 h2 ⊢
  exact ⟨pyEq_trans h1.1 h2.1, pyEq_trans h1.2 h2.2⟩

theorem pyEqUV_refl {a : UVv} (h1 : a.1.isNaN = false) (h2 : a.2.isNaN = false) :
    pyEqUV a a = true := by
  unfold pyEqUV
  simp only [Bool.and_eq_true]
  exact ⟨pyEq_refl h1, pyEq_refl h2⟩

theorem pyEqN_true_symm {a b : NVec} (h : pyEqN a b = true) : pyEqN b a = true := by
  unfold pyEqN at h ⊢
  simp only [Bool.and_eq_true] at h ⊢
  exact ⟨⟨pyEq_true_symm h.1.1, pyEq_true_symm h.1.2⟩, pyEq_true_symm h.2⟩

theorem pyEqN_trans {a b c : NVec} (h1 : pyEqN a b = true) (h2 : pyEqN b c = true) :
    pyEqN a c = true := by
  unfold pyEqN at h1 h2 ⊢
  simp only [Bool.and_eq_true] at h1 h2 ⊢
  exact ⟨⟨pyEq_trans h1.1.1 h2.1.1, pyEq_trans h1.1.2 h2.1.2⟩, pyEq_trans h1.2 h2.2⟩

theorem pyEqN_refl {a : NVec} (h1 : a.1.isNaN = false) (h2 : a.2.1.isNaN = false)
    (h3 : a.2.2.isNaN = false) : pyEqN a a = true := by
  unfold pyEqN
  simp only [Bool.and_eq_true]
  exact ⟨⟨pyEq_refl h1, pyEq_refl h2⟩, pyEq_refl h3⟩

/-! ### Representative-dict lemmas -/

theorem repLookup_none {eq : α → α → Bool} {mp : List (α × Nat)} {v : α}
    (h : repLookup eq mp v = none) : ∀ p ∈ mp, eq p.1 v = false := by
  unfold repLookup at h
  cases hf : mp.find? (fun p => eq p.1 v) with
  | some p => rw [hf] at h; simp at h
  | none =>
    intro p hp
    simpa using List.find?_eq_none.mp hf p hp

theorem repStep_mem (eq : α → α → Bool) (mp : List (α × Nat)) (v : α) (l : Nat)
    {p : α × Nat} (h : p ∈ mp) : p ∈ (repStep eq mp v l).2 := by
  unfold repStep
  cases hl : repLookup eq mp v <;> simp [h]

theorem repStep_fact (eq : α → α → Bool) (mp : List (α × Nat)) (v : α) (l : Nat) :
    RepFact eq (repStep eq mp v l).2 v l (repStep eq mp v l).1 := by
  unfold repStep
  cases hl : repLookup eq mp v with
  | none =>
    exact ⟨l, rfl, v, by simp, Or.inr ⟨rfl, rfl⟩⟩
  | some i =>
    unfold repLookup at hl
    cases hf : mp.find? (fun p => eq p.1 v) with
    | none => rw [hf] at hl; simp at hl
    | some p =>
      rw [hf] at hl
      simp only [Option.map_some', Option.some.injEq] at hl
      have hp : eq p.1 v = true := by simpa using List.find?_some hf
      have hmem : p ∈ mp := List.mem_of_find?_eq_some hf
      exact ⟨i, rfl, p.1, by rw [← hl]; simpa using hmem, Or.inl hp⟩

theorem repStep_inv (eq : α → α → Bool) (d : Nat → α) (mp : List (α × Nat)) (v : α) (l : Nat)
    (hinv : RepInv eq d mp) (hv : d l = v) : RepInv eq d (repStep eq mp v l).2 := by
  unfold repStep
  cases hl : repLookup eq mp v with
  | some i => exact hinv
  | none =>
    obtain ⟨hd, hpw⟩ := hinv
    constructor
    · intro p hp
      rcases List.mem_append.mp hp with hin | hin
      · exact hd p hin
      · simp only [List.mem_singleton] at hin
        subst hin
        exact hv
    · rw [List.pairwise_append]
      refine ⟨hpw, List.pairwise_singleton _ _, ?_⟩
      intro p hp q hq
      simp only [List.mem_singleton] at hq
      subst hq
      exact repLookup_none hl p hp

theorem repInv_unique {eq : α → α → Bool} {d : Nat → α} {mp : List (α × Nat)}
    (hsymm : ∀ a b, eq a b = true → eq b a = true)
    (hinv : RepInv eq d mp) {k1 k2 : α} {i1 i2 : Nat}
    (h1 : (k1, i1) ∈ mp) (h2 : (k2, i2) ∈ mp) (heq : eq k1 k2 = true) : i1 = i2 := by
  have hsym : Symmetric (fun p q : α × Nat => eq p.1 q.1 = false) := by
    intro p q hpq
    cases hqp : eq q.1 p.1 with
    | false => rfl
    | true => rw [hsymm _ _ hqp] at hpq; exact hpq
  by_cases hne : (k1, i1) = (k2, i2)
  · exact congrArg Prod.snd hne
  · have := hinv.2.forall hsym h1 h2 hne
    rw [heq] at this
    exact absurd this (by simp)

theorem RepFact.mono {eq : α → α → Bool} {mp mp' : List (α × Nat)}
    (hsub : ∀ p ∈ mp, p ∈ mp') {v : α} {l : Nat} {x : Int}
    (h : RepFact eq mp v l x) : RepFact eq mp' v l x := by
  obtain ⟨n, hx, k, hk, hc⟩ := h
  exact ⟨n, hx, k, hsub _ hk, hc⟩

/-! ### `unique_verts` lookup lemmas -/

theorem lookupKey_some {mp : List (VKey × Nat)} {k : VKey} {v : Nat}
    (h : lookupKey mp k = some v) : (k, v) ∈ mp := by
  unfold lookupKey at h
  cases hf : mp.find? (fun p => decide (p.1 = k)) with
  | none => rw [hf] at h; simp at h
  | some p =>
    rw [hf] at h
    simp only [Option.map_some', Option.some.injEq] at h
    have hp : p.1 = k := by simpa using List.find?_some hf
    have hmem : p ∈ mp := List.mem_of_find?_eq_some hf
    rw [← h, ← hp]
    simpa using hmem

theorem lookupKey_none {mp : List (VKey × Nat)} {k : VKey}
    (h : lookupKey mp k = none) : ∀ p ∈ mp, p.1 ≠ k := by
  unfold lookupKey at h
  cases hf : mp.find? (fun p => decide (p.1 = k)) with
  | some p => rw [hf] at h; simp at h
  | none =>
    intro p hp
    simpa using List.find?_eq_none.mp hf p hp

theorem lookupKey_append {mp mp' : List (VKey × Nat)} {k : VKey}
    (h : (lookupKey mp k).isSome) : (lookupKey (mp ++ mp') k).isSome := by
  unfold lookupKey at h ⊢
  rw [List.find?_append]
  cases hf : mp.find? (fun p => decide (p.1 = k)) with
  | none => rw [hf] at h; simp at h
  | some p => simp [hf]

theorem lookupKey_append_self (mp : List (VKey × Nat)) (k : VKey) (v : Nat) :
    (lookupKey (mp ++ [(k, v)]) k).isSome := by
  unfold lookupKey
  rw [List.find?_append]
  cases hf : mp.find? (fun p => decide (p.1 = k)) with
  | none => simp
  | some p => simp [hf]

/-! ### The dedup loop invariant -/

theorem getD_append_length (xs : List α) (a d : α) {n : Nat} (h : n = xs.length) :
    (xs ++ [a]).getD n d = a := by
  subst h
  rw [List.getD_append_right _ _ _ _ (Nat.le_refl _), Nat.sub_self]
  rfl

theorem corner_ok_extend {m : Mesh} {st : DedupState}
    (vlext : List VKey) (uvs' : List (UVv × Nat)) (ns' : List (NVec × Nat))
    (humem : ∀ p ∈ st.uvs, p ∈ uvs') (hnmem : ∀ p ∈ st.normals, p ∈ ns')
    {lc vid : Nat}
    (h : vid < st.vertex_list.length ∧
      (st.vertex_list.getD vid default).1 = m.loops_vertex_index.getD lc 0 ∧
      (m.uv_layers = none → (st.vertex_list.getD vid default).2.1 = -1) ∧
      (∀ d, m.uv_layers = some d →
        RepFact pyEqUV st.uvs (uvAt d lc) lc (st.vertex_list.getD vid default).2.1) ∧
      RepFact pyEqN st.normals (nAt m lc) lc (st.vertex_list.getD vid default).2.2) :
    vid < (st.vertex_list ++ vlext).length ∧
      ((st.vertex_list ++ vlext).getD vid default).1 = m.loops_vertex_index.getD lc 0 ∧
      (m.uv_layers = none → ((st.vertex_list ++ vlext).getD vid default).2.1 = -1) ∧
      (∀ d, m.uv_layers = some d →
        RepFact pyEqUV uvs' (uvAt d lc) lc ((st.vertex_list ++ vlext).getD vid default).2.1) ∧
      RepFact pyEqN ns' (nAt m lc) lc ((st.vertex_list ++ vlext).getD vid default).2.2 := by
  obtain ⟨o1, o2, o3, o4, o5⟩ := h
  rw [List.getD_append _ _ _ _ o1]
  refine ⟨?_, o2, o3, fun d hd => (o4 d hd).mono humem, o5.mono hnmem⟩
  exact Nat.lt_of_lt_of_le o1 (by simp)

theorem dinv_init (m : Mesh) : DInv m [] DedupState.init := by
  refine ⟨?_, ?_, ?_, ?_, ?_, rfl, List.nodup_nil, rfl, ?_⟩
  · intro d _
    exact ⟨by intro p hp; simp [DedupState.init] at hp, by simp [DedupState.init]⟩
  · intro _
    rfl
  · exact ⟨by intro p hp; simp [DedupState.init] at hp, by simp [DedupState.init]⟩
  · intro p hp
    simp [DedupState.init] at hp
  · intro k hk2
    simp [DedupState.init] at hk2
  · intro j hj
    simp at hj

theorem dinv_step (m : Mesh) (done : List Nat) (st : DedupState) (l : Nat)
    (h : DInv m done st) : DInv m (done ++ [l]) (dedupCorner m st l) := by
  obtain ⟨huv, huvn, hnrm, hkeys, hall, hlen, hnd, hvl, hok⟩ := h
  have hnfact := repStep_fact pyEqN st.normals (nAt m l) l
  have hnmem : ∀ p ∈ st.normals, p ∈ (repStep pyEqN st.normals (nAt m l) l).2 :=
    fun p hp => repStep_mem pyEqN st.normals (nAt m l) l hp
  have hninv : RepInv pyEqN (nAt m) (repStep pyEqN st.normals (nAt m l) l).2 :=
    repStep_inv pyEqN (nAt m) st.normals (nAt m l) l hnrm rfl
  cases hm : m.uv_layers with
  | none =>
    simp only [dedupCorner, hm]
    cases hk : lookupKey st.unique_verts
        (m.loops_vertex_index.getD l 0, -1, (repStep pyEqN st.normals (nAt m l) l).1) with
    | none =>
      refine ⟨?_, ?_, hninv, ?_, ?_, ?_, ?_, ?_, ?_⟩
      · intro d hd
        rw [hm] at hd
        cases hd
      · intro _
        exact huvn hm
      · intro p hp
        rcases List.mem_append.mp hp with hin | hin
        · obtain ⟨h1, h2⟩ := hkeys p hin
          refine ⟨Nat.lt_of_lt_of_le h1 (by simp), ?_⟩
          rw [List.getD_append _ _ _ _ h1]
          exact h2
        · simp only [List.mem_singleton] at hin
          subst hin
          exact ⟨by simp, getD_append_length _ _ _ rfl⟩
      · intro k hk2
        rcases List.mem_append.mp hk2 with hin | hin
        · exact lookupKey_append (hall k hin)
        · simp only [List.mem_singleton] at hin
          subst hin
          exact lookupKey_append_self _ _ _
      · simp [hlen]
      · rw [List.nodup_append]
        refine ⟨hnd, List.nodup_singleton _, ?_⟩
        intro a ha hb
        simp only [List.mem_singleton] at hb
        subst hb
        have := hall _ ha
        rw [hk] at this
        simp at this
      · simp [hvl]
      · intro j hj
        simp only [List.length_append, List.length_singleton] at hj
        rcases Nat.lt_or_ge j done.length with hlt | hge
        · have hold := hok j hlt
          simp only at hold ⊢
          rw [List.getD_append _ _ _ _ hlt, List.getD_append _ _ _ _ (hvl ▸ hlt)]
          exact corner_ok_extend _ _ _ (fun p hp => hp) hnmem hold
        · have hje : j = done.length := Nat.le_antisymm (Nat.lt_succ_iff.mp hj) hge
          subst hje
          simp only
          rw [getD_append_length _ _ _ rfl, getD_append_length _ _ _ hvl.symm,
            getD_append_length _ _ _ rfl]
          refine ⟨by simp, rfl, fun _ => rfl, ?_, hnfact⟩
          intro d hd
          rw [hm] at hd
          cases hd
    | some vid =>
      have hmemk := lookupKey_some hk
      obtain ⟨hv1, hv2⟩ := hkeys _ hmemk
      refine ⟨?_, ?_, hninv, hkeys, hall, hlen, hnd, ?_, ?_⟩
      · intro d hd
        rw [hm] at hd
        cases hd
      · intro _
        exact huvn hm
      · simp [hvl]
      · intro j hj
        simp only [List.length_append, List.length_singleton] at hj
        rcases Nat.lt_or_ge j done.length with hlt | hge
        · have hold := hok j hlt
          simp only at hold ⊢
          rw [List.getD_append _ _ _ _ hlt, List.getD_append _ _ _ _ (hvl ▸ hlt)]
          obtain ⟨o1, o2, o3, o4, o5⟩ := hold
          exact ⟨o1, o2, o3, fun d hd => o4 d hd, o5.mono hnmem⟩
        · have hje : j = done.length := Nat.le_antisymm (Nat.lt_succ_iff.mp hj) hge
          subst hje
          simp only
          rw [getD_append_length _ _ _ rfl, getD_append_length _ _ _ hvl.symm, hv2]
          refine ⟨hv1, rfl, fun _ => rfl, ?_, hnfact⟩
          intro d hd
          rw [hm] at hd
          cases hd
  | some d =>
    have huv' : RepInv pyEqUV (uvAt d) st.uvs := huv d hm
    have hufact := repStep_fact pyEqUV st.uvs (uvAt d l) l
    have humem : ∀ p ∈ st.uvs, p ∈ (repStep pyEqUV st.uvs (uvAt d l) l).2 :=
      fun p hp => repStep_mem pyEqUV st.uvs (uvAt d l) l hp
    have huinv : RepInv pyEqUV (uvAt d) (repStep pyEqUV st.uvs (uvAt d l) l).2 :=
      repStep_inv pyEqUV (uvAt d) st.uvs (uvAt d l) l huv' rfl
    simp only [dedupCorner, hm]
    cases hk : lookupKey st.unique_verts
        (m.loops_vertex_index.getD l 0, (repStep pyEqUV st.uvs (uvAt d l) l).1,
          (repStep pyEqN st.normals (nAt m l) l).1) with
    | none =>
      refine ⟨?_, ?_, hninv, ?_, ?_, ?_, ?_, ?_, ?_⟩
      · intro d' hd'
        rw [hm] at hd'
        have hdd : d = d' := Option.some.inj hd'
        subst hdd
        exact huinv
      · intro hcontra
        rw [hm] at hcontra
        cases hcontra
      · intro p hp
        rcases List.mem_append.mp hp with hin | hin
        · obtain ⟨h1, h2⟩ := hkeys p hin
          refine ⟨Nat.lt_of_lt_of_le h1 (by simp), ?_⟩
          rw [List.getD_append _ _ _ _ h1]
          exact h2
        · simp only [List.mem_singleton] at hin
          subst hin
          exact ⟨by simp, getD_append_length _ _ _ rfl⟩
      · intro k hk2
        rcases List.mem_append.mp hk2 with hin | hin
        · exact lookupKey_append (hall k hin)
        · simp only [List.mem_singleton] at hin
          subst hin
          exact lookupKey_append_self _ _ _
      · simp [hlen]
      · rw [List.nodup_append]
        refine ⟨hnd, List.nodup_singleton _, ?_⟩
        intro a ha hb
        simp only [List.mem_singleton] at hb
        subst hb
        have := hall _ ha
        rw [hk] at this
        simp at this
      · simp [hvl]
      · intro j hj
        simp only [List.length_append, List.length_singleton] at hj
        rcases Nat.lt_or_ge j done.length with hlt | hge
        · have hold := hok j hlt
          simp only at hold ⊢
          rw [List.getD_append _ _ _ _ hlt, List.getD_append _ _ _ _ (hvl ▸ hlt)]
          exact corner_ok_extend _ _ _ humem hnmem hold
        · have hje : j = done.length := Nat.le_antisymm (Nat.lt_succ_iff.mp hj) hge
          subst hje
          simp only
          rw [getD_append_length _ _ _ rfl, getD_append_length _ _ _ hvl.symm,
            getD_append_length _ _ _ rfl]
          refine ⟨by simp, rfl, ?_, ?_, hnfact⟩
          · intro hcontra
            rw [hm] at hcontra
            cases hcontra
          · intro d' hd'
            rw [hm] at hd'
            have hdd : d = d' := Option.some.inj hd'
            subst hdd
            exact hufact
    | some vid =>
      have hmemk := lookupKey_some hk
      obtain ⟨hv1, hv2⟩ := hkeys _ hmemk
      refine ⟨?_, ?_, hninv, hkeys, hall, hlen, hnd, ?_, ?_⟩
      · intro d' hd'
        rw [hm] at hd'
        have hdd : d = d' := Option.some.inj hd'
        subst hdd
        exact huinv
      · intro hcontra
        rw [hm] at hcontra
        cases hcontra
      · simp [hvl]
      · intro j hj
        simp only [List.length_append, List.length_singleton] at hj
        rcases Nat.lt_or_ge j done.length with hlt | hge
        · have hold := hok j hlt
          simp only at hold ⊢
          rw [List.getD_append _ _ _ _ hlt, List.getD_append _ _ _ _ (hvl ▸ hlt)]
          obtain ⟨o1, o2, o3, o4, o5⟩ := hold
          exact ⟨o1, o2, o3, fun dd hd => (o4 dd hd).mono humem, o5.mono hnmem⟩
        · have hje : j = done.length := Nat.le_antisymm (Nat.lt_succ_iff.mp hj) hge
          subst hje
          simp only
          rw [getD_append_length _ _ _ rfl, getD_append_length _ _ _ hvl.symm, hv2]
          refine ⟨hv1, rfl, ?_, ?_, hnfact⟩
          · intro hcontra
            rw [hm] at hcontra
            cases hcontra
          · intro d' hd'
            rw [hm] at hd'
            have hdd : d = d' := Option.some.inj hd'
            subst hdd
            exact hufact

theorem dinv_fold (m : Mesh) (todo : List Nat) :
    ∀ done st, DInv m done st → DInv m (done ++ todo) (todo.foldl (dedupCorner m) st) := by
  induction todo with
  | nil =>
    intro done st h
    simpa using h
  | cons a as ih =>
    intro done st h
    have h3 := ih (done ++ [a]) _ (dinv_step m done st a h)
    simpa [List.append_assoc] using h3

theorem dinv_run (m : Mesh) : DInv m m.corners (runDedup m) := by
  have h := dinv_fold m m.corners [] DedupState.init (dinv_init m)
  simpa [runDedup] using h

theorem unique_verts_length_eq_vertex_list (m : Mesh) :
    (runDedup m).unique_verts.length = (runDedup m).vertex_list.length :=
  (dinv_run m).uvlen

theorem dedupCorner_unique_le (m : Mesh) (st : DedupState) (l : Nat) :
    st.unique_verts.length ≤ (dedupCorner m st l).unique_verts.length := by
  cases hm : m.uv_layers with
  | none =>
    simp only [dedupCorner, hm]
    cases lookupKey st.unique_verts (m.loops_vertex_index.getD l 0, -1,
        (repStep pyEqN st.normals (nAt m l) l).1) <;> simp
  | some dd =>
    simp only [dedupCorner, hm]
    cases lookupKey st.unique_verts (m.loops_vertex_index.getD l 0,
        (repStep pyEqUV st.uvs (uvAt dd l) l).1,
        (repStep pyEqN st.normals (nAt m l) l).1) <;> simp

theorem dedupCorner_uvs_le (m : Mesh) (st : DedupState) (l : Nat) :
    st.uvs.length ≤ (dedupCorner m st l).uvs.length := by
  cases hm : m.uv_layers with
  | none =>
    simp only [dedupCorner, hm]
    cases lookupKey st.unique_verts (m.loops_vertex_index.getD l 0, -1,
        (repStep pyEqN st.normals (nAt m l) l).1) <;> simp
  | some dd =>
    have hrep : st.uvs.length ≤ (repStep pyEqUV st.uvs (uvAt dd l) l).2.length := by
      unfold repStep
      cases repLookup pyEqUV st.uvs (uvAt dd l) <;> simp
    simp only [dedupCorner, hm]
    cases lookupKey st.unique_verts (m.loops_vertex_index.getD l 0,
        (repStep pyEqUV st.uvs (uvAt dd l) l).1,
        (repStep pyEqN st.normals (nAt m l) l).1) <;> simpa using hrep

theorem foldl_unique_le (m : Mesh) (todo : List Nat) :
    ∀ st : DedupState, st.unique_verts.length ≤
      (todo.foldl (dedupCorner m) st).unique_verts.length := by
  induction todo with
  | nil => intro st; simp
  | cons a as ih =>
    intro st
    exact Nat.le_trans (dedupCorner_unique_le m st a) (ih _)

theorem foldl_uvs_le (m : Mesh) (todo : List Nat) :
    ∀ st : DedupState, st.uvs.length ≤ (todo.foldl (dedupCorner m) st).uvs.length := by
  induction todo with
  | nil => intro st; simp
  | cons a as ih =>
    intro st
    exact Nat.le_trans (dedupCorner_uvs_le m st a) (ih _)

theorem dedupCorner_init_unique (m : Mesh) (l : Nat) :
    (dedupCorner m DedupState.init l).unique_verts.length = 1 := by
  cases hm : m.uv_layers <;> (simp only [dedupCorner, hm]; rfl)

theorem dedupCorner_init_uvs (m : Mesh) (dd : List UVv) (hm : m.uv_layers = some dd) (l : Nat) :
    (dedupCorner m DedupState.init l).uvs.length = 1 := by
  simp only [dedupCorner, hm]
  rfl

theorem corners_cons (m : Mesh) (t : Nat × Nat × Nat) (ts : List (Nat × Nat × Nat))
    (h : m.loop_triangles = t :: ts) :
    m.corners = t.1 :: t.2.1 :: t.2.2 :: (ts.flatMap (fun t => [t.1, t.2.1, t.2.2])) := by
  simp [Mesh.corners, h]

theorem runDedup_unique_pos (m : Mesh) (h : m.loop_triangles ≠ []) :
    0 < (runDedup m).unique_verts.length := by
  cases ht : m.loop_triangles with
  | nil => exact absurd ht h
  | cons t ts =>
    rw [runDedup, corners_cons m t ts ht, List.foldl_cons]
    calc 0 < (dedupCorner m DedupState.init t.1).unique_verts.length := by
          rw [dedupCorner_init_unique]
          exact Nat.one_pos
      _ ≤ _ := foldl_unique_le m _ _

theorem runDedup_uvs_pos (m : Mesh) (dd : List UVv) (hm : m.uv_layers = some dd)
    (h : m.loop_triangles ≠ []) : 0 < (runDedup m).uvs.length := by
  cases ht : m.loop_triangles with
  | nil => exact absurd ht h
  | cons t ts =>
    rw [runDedup, corners_cons m t ts ht, List.foldl_cons]
    calc 0 < (dedupCorner m DedupState.init t.1).uvs.length := by
          rw [dedupCorner_init_uvs m dd hm]
          exact Nat.one_pos
      _ ≤ _ := foldl_uvs_le m _ _

theorem runDedup_no_tris (m : Mesh) (h : m.loop_triangles = []) :
    runDedup m = DedupState.init := by
  simp [runDedup, Mesh.corners, h]

theorem noNaN_uvAt {m : Mesh} {d : List UVv} (hm : m.uv_layers = some d)
    (hnn : m.noNaNB = true) (l : Nat) :
    (uvAt d l).1.isNaN = false ∧ (uvAt d l).2.isNaN = false := by
  unfold Mesh.noNaNB at hnn
  rw [hm] at hnn
  simp only [Bool.and_eq_true, List.all_eq_true] at hnn
  obtain ⟨hd, _⟩ := hnn
  unfold uvAt
  rcases Nat.lt_or_ge l d.length with hl | hl
  · have hmem : d.getD l default ∈ d := by
      rw [List.getD_eq_getElem _ _ hl]
      exact List.getElem_mem hl
    have hv := hd _ hmem
    simp only [Bool.and_eq_true, Bool.not_eq_true'] at hv
    exact hv
  · rw [List.getD_eq_default _ _ hl]
    exact ⟨rfl, rfl⟩

theorem noNaN_nAt {m : Mesh} (hnn : m.noNaNB = true) (l : Nat) :
    (nAt m l).1.isNaN = false ∧ (nAt m l).2.1.isNaN = false ∧ (nAt m l).2.2.isNaN = false := by
  unfold Mesh.noNaNB at hnn
  simp only [Bool.and_eq_true, List.all_eq_true] at hnn
  obtain ⟨_, hd⟩ := hnn
  unfold nAt
  rcases Nat.lt_or_ge l m.loops_normal.length with hl | hl
  · have hmem : m.loops_normal.getD l default ∈ m.loops_normal := by
      rw [List.getD_eq_getElem _ _ hl]
      exact List.getElem_mem hl
    have hv := hd _ hmem
    simp only [Bool.and_eq_true, Bool.not_eq_true'] at hv
    exact ⟨hv.1.1, hv.1.2, hv.2⟩
  · rw [List.getD_eq_default _ _ hl]
    exact ⟨rfl, rfl, rfl⟩

/-- C4: Dedup correctness — for every mesh, expanding the index buffer
produced by `write_mesh_buffers` against its unique-vertex list
reproduces, for every original triangle corner in original corner order,
the exact original position (the very same vertex element), and a uv
pair / normal vector that is the original value (bit-for-bit, when the
corner's value was its own representative) or compares `==`-equal to it
(exact floating comparison, no epsilon).  `runDedup` is the dedup loop of
`write_mesh_buffers`, whose positions/uv/normal streams read exactly the
`vertex_list` entries referenced here. -/
theorem dedup_expansion_reproduces_corners (m : Mesh) :
    (runDedup m).vertex_indices.length = m.corners.length ∧
    ∀ j, j < m.corners.length →
      (runDedup m).vertex_indices.getD j 0 < (runDedup m).vertex_list.length ∧
      ((runDedup m).vertex_list.getD ((runDedup m).vertex_indices.getD j 0) default).1 =
        m.loops_vertex_index.getD (m.corners.getD j 0) 0 ∧
      m.vertices.getD
          ((runDedup m).vertex_list.getD ((runDedup m).vertex_indices.getD j 0) default).1
          default =
        m.vertices.getD (m.loops_vertex_index.getD (m.corners.getD j 0) 0) default ∧
      (∀ d, m.uv_layers = some d →
        (uvAt d ((runDedup m).vertex_list.getD ((runDedup m).vertex_indices.getD j 0)
            default).2.1.toNat = uvAt d (m.corners.getD j 0) ∨
          pyEqUV (uvAt d ((runDedup m).vertex_list.getD ((runDedup m).vertex_indices.getD j 0)
            default).2.1.toNat) (uvAt d (m.corners.getD j 0)) = true)) ∧
      (nAt m ((runDedup m).vertex_list.getD ((runDedup m).vertex_indices.getD j 0)
          default).2.2.toNat = nAt m (m.corners.getD j 0) ∨
        pyEqN (nAt m ((runDedup m).vertex_list.getD ((runDedup m).vertex_indices.getD j 0)
          default).2.2.toNat) (nAt m (m.corners.getD j 0)) = true) := by
  have hinv := dinv_run m
  refine ⟨hinv.vilen, ?_⟩
  intro j hj
  obtain ⟨o1, o2, o3, o4, o5⟩ := hinv.corners_ok j hj
  refine ⟨o1, o2, by rw [o2], ?_, ?_⟩
  · intro d hd
    obtain ⟨n, hn, k, hk, hc⟩ := o4 d hd
    rw [hn]
    simp only [Int.toNat_natCast]
    have hdn : uvAt d n = k := (hinv.uv_inv d hd).1 (k, n) hk
    rcases hc with hq | ⟨hnl, hkv⟩
    · right
      rw [hdn]
      exact hq
    · left
      rw [hnl] at hdn
      rw [hnl, hdn, hkv]
  · obtain ⟨n, hn, k, hk, hc⟩ := o5
    rw [hn]
    simp only [Int.toNat_natCast]
    have hdn : nAt m n = k := hinv.n_inv.1 (k, n) hk
    rcases hc with hq | ⟨hnl, hkv⟩
    · right
      rw [hdn]
      exact hq
    · left
      rw [hnl] at hdn
      rw [hnl, hdn, hkv]

theorem dedup_expansion_reproduces_corners_witness :
    2 < meshC4w.corners.length ∧
    ((runDedup meshC4w).vertex_indices.getD 2 0 < (runDedup meshC4w).vertex_list.length ∧
      ((runDedup meshC4w).vertex_list.getD ((runDedup meshC4w).vertex_indices.getD 2 0)
          default).1 = meshC4w.loops_vertex_index.getD (meshC4w.corners.getD 2 0) 0 ∧
      meshC4w.vertices.getD
          ((runDedup meshC4w).vertex_list.getD ((runDedup meshC4w).vertex_indices.getD 2 0)
            default).1 default =
        meshC4w.vertices.getD
          (meshC4w.loops_vertex_index.getD (meshC4w.corners.getD 2 0) 0) default ∧
      (∀ d, meshC4w.uv_layers = some d →
        (uvAt d ((runDedup meshC4w).vertex_list.getD
            ((runDedup meshC4w).vertex_indices.getD 2 0) default).2.1.toNat =
            uvAt d (meshC4w.corners.getD 2 0) ∨
          pyEqUV (uvAt d ((runDedup meshC4w).vertex_list.getD
            ((runDedup meshC4w).vertex_indices.getD 2 0) default).2.1.toNat)
            (uvAt d (meshC4w.corners.getD 2 0)) = true)) ∧
      (nAt meshC4w ((runDedup meshC4w).vertex_list.getD
          ((runDedup meshC4w).vertex_indices.getD 2 0) default).2.2.toNat =
          nAt meshC4w (meshC4w.corners.getD 2 0) ∨
        pyEqN (nAt meshC4w ((runDedup meshC4w).vertex_list.getD
          ((runDedup meshC4w).vertex_indices.getD 2 0) default).2.2.toNat)
          (nAt meshC4w (meshC4w.corners.getD 2 0)) = true)) :=
  ⟨by decide, (dedup_expansion_reproduces_corners meshC4w).2 2 (by decide)⟩

/-- C5 (amended): Dedup minimality under Python float equality — for any
mesh whose uv/normal attribute values contain no NaN, two triangle
corners receive the same unique vertex id iff their vertex indices are
equal and their uv pairs (when a uv layer exists) and normal triples are
equal under exact floating-point comparison `pyEq` (no epsilon; `pyEq`
is bit-exactness except that +0.0 and -0.0 compare equal).  The claim's
literal bit-for-bit reading is refuted by
`dedup_merges_bit_distinct_zeros`. -/
theorem dedup_minimality_value_eq (m : Mesh) (hnn : m.noNaNB = true) :
    ∀ j1 j2, j1 < m.corners.length → j2 < m.corners.length →
      ((runDedup m).vertex_indices.getD j1 0 = (runDedup m).vertex_indices.getD j2 0 ↔
        (m.loops_vertex_index.getD (m.corners.getD j1 0) 0 =
            m.loops_vertex_index.getD (m.corners.getD j2 0) 0 ∧
          (∀ d, m.uv_layers = some d →
            pyEqUV (uvAt d (m.corners.getD j1 0)) (uvAt d (m.corners.getD j2 0)) = true) ∧
          pyEqN (nAt m (m.corners.getD j1 0)) (nAt m (m.corners.getD j2 0)) = true)) := by
  intro j1 j2 hj1 hj2
  have hinv := dinv_run m
  obtain ⟨a1, a2, a3, a4, a5⟩ := hinv.corners_ok j1 hj1
  obtain ⟨b1, b2, b3, b4, b5⟩ := hinv.corners_ok j2 hj2
  have hnq1 : ∀ d, m.uv_layers = some d →
      ∃ (n : Nat) (k : UVv), ((runDedup m).vertex_list.getD ((runDedup m).vertex_indices.getD j1 0)
          default).2.1 = (n : Int) ∧ (k, n) ∈ (runDedup m).uvs ∧
        pyEqUV k (uvAt d (m.corners.getD j1 0)) = true := by
    intro d hd
    obtain ⟨n, hn, k, hk, hc⟩ := a4 d hd
    refine ⟨n, k, hn, hk, ?_⟩
    rcases hc with hq | ⟨_, hkv⟩
    · exact hq
    · rw [hkv]
      obtain ⟨z1, z2⟩ := noNaN_uvAt hd hnn (m.corners.getD j1 0)
      exact pyEqUV_refl z1 z2
  have hnq2 : ∀ d, m.uv_layers = some d →
      ∃ (n : Nat) (k : UVv), ((runDedup m).vertex_list.getD ((runDedup m).vertex_indices.getD j2 0)
          default).2.1 = (n : Int) ∧ (k, n) ∈ (runDedup m).uvs ∧
        pyEqUV k (uvAt d (m.corners.getD j2 0)) = true := by
    intro d hd
    obtain ⟨n, hn, k, hk, hc⟩ := b4 d hd
    refine ⟨n, k, hn, hk, ?_⟩
    rcases hc with hq | ⟨_, hkv⟩
    · exact hq
    · rw [hkv]
      obtain ⟨z1, z2⟩ := noNaN_uvAt hd hnn (m.corners.getD j2 0)
      exact pyEqUV_refl z1 z2
  have hmq1 : ∃ (n : Nat) (k : NVec), ((runDedup m).vertex_list.getD ((runDedup m).vertex_indices.getD j1 0)
      default).2.2 = (n : Int) ∧ (k, n) ∈ (runDedup m).normals ∧
      pyEqN k (nAt m (m.corners.getD j1 0)) = true := by
    obtain ⟨n, hn, k, hk, hc⟩ := a5
    refine ⟨n, k, hn, hk, ?_⟩
    rcases hc with hq | ⟨_, hkv⟩
    · exact hq
    · rw [hkv]
      obtain ⟨z1, z2, z3⟩ := noNaN_nAt hnn (m.corners.getD j1 0)
      exact pyEqN_refl z1 z2 z3
  have hmq2 : ∃ (n : Nat) (k : NVec), ((runDedup m).vertex_list.getD ((runDedup m).vertex_indices.getD j2 0)
      default).2.2 = (n : Int) ∧ (k, n) ∈ (runDedup m).normals ∧
      pyEqN k (nAt m (m.corners.getD j2 0)) = true := by
    obtain ⟨n, hn, k, hk, hc⟩ := b5
    refine ⟨n, k, hn, hk, ?_⟩
    rcases hc with hq | ⟨_, hkv⟩
    · exact hq
    · rw [hkv]
      obtain ⟨z1, z2, z3⟩ := noNaN_nAt hnn (m.corners.getD j2 0)
      exact pyEqN_refl z1 z2 z3
  constructor
  · -- same id → equal attribute triples
    intro hv
    rw [hv] at a2 hnq1 hmq1
    refine ⟨a2.symm.trans b2, ?_, ?_⟩
    · intro d hd
      obtain ⟨n1, k1, hn1, hk1, hq1⟩ := hnq1 d hd
      obtain ⟨n2, k2, hn2, hk2, hq2⟩ := hnq2 d hd
      have hnn12 : n1 = n2 := by
        have := hn1.symm.trans hn2
        exact_mod_cast this
      subst hnn12
      have hd1 : uvAt d n1 = k1 := (hinv.uv_inv d hd).1 (k1, n1) hk1
      have hd2 : uvAt d n1 = k2 := (hinv.uv_inv d hd).1 (k2, n1) hk2
      have hk12 : k1 = k2 := hd1.symm.trans hd2
      subst hk12
      exact pyEqUV_trans (pyEqUV_true_symm hq1) hq2
    · obtain ⟨n1, k1, hn1, hk1, hq1⟩ := hmq1
      obtain ⟨n2, k2, hn2, hk2, hq2⟩ := hmq2
      have hnn12 : n1 = n2 := by
        have := hn1.symm.trans hn2
        exact_mod_cast this
      subst hnn12
      have hd1 : nAt m n1 = k1 := hinv.n_inv.1 (k1, n1) hk1
      have hd2 : nAt m n1 = k2 := hinv.n_inv.1 (k2, n1) hk2
      have hk12 : k1 = k2 := hd1.symm.trans hd2
      subst hk12
      exact pyEqN_trans (pyEqN_true_symm hq1) hq2
  · -- equal attribute triples → same id
    rintro ⟨hvv, huvq, hnvq⟩
    have hkeyuv : ((runDedup m).vertex_list.getD ((runDedup m).vertex_indices.getD j1 0)
        default).2.1 =
        ((runDedup m).vertex_list.getD ((runDedup m).vertex_indices.getD j2 0) default).2.1 := by
      cases hm : m.uv_layers with
      | none => rw [a3 hm, b3 hm]
      | some d =>
        obtain ⟨n1, k1, hn1, hk1, hq1⟩ := hnq1 d hm
        obtain ⟨n2, k2, hn2, hk2, hq2⟩ := hnq2 d hm
        have hq12 : pyEqUV k1 k2 = true :=
          pyEqUV_trans hq1 (pyEqUV_trans (huvq d hm) (pyEqUV_true_symm hq2))
        have hn12 : n1 = n2 :=
          repInv_unique (fun a b => pyEqUV_true_symm) (hinv.uv_inv d hm) hk1 hk2 hq12
        rw [hn1, hn2, hn12]
    have hkeyn : ((runDedup m).vertex_list.getD ((runDedup m).vertex_indices.getD j1 0)
        default).2.2 =
        ((runDedup m).vertex_list.getD ((runDedup m).vertex_indices.getD j2 0) default).2.2 := by
      obtain ⟨n1, k1, hn1, hk1, hq1⟩ := hmq1
      obtain ⟨n2, k2, hn2, hk2, hq2⟩ := hmq2
      have hq12 : pyEqN k1 k2 = true :=
        pyEqN_trans hq1 (pyEqN_trans hnvq (pyEqN_true_symm hq2))
      have hn12 : n1 = n2 :=
        repInv_unique (fun a b => pyEqN_true_symm) hinv.n_inv hk1 hk2 hq12
      rw [hn1, hn2, hn12]
    have hkey : (runDedup m).vertex_list.getD ((runDedup m).vertex_indices.getD j1 0) default =
        (runDedup m).vertex_list.getD ((runDedup m).vertex_indices.getD j2 0) default := by
      rw [Prod.ext_iff, Prod.ext_iff]
      exact ⟨a2.trans (hvv.trans b2.symm), hkeyuv, hkeyn⟩
    rw [List.getD_eq_getElem _ _ a1, List.getD_eq_getElem _ _ b1] at hkey
    exact (hinv.nodup.getElem_inj_iff).mp hkey

/-! ### Buffer-view layout lemmas -/

theorem chainEnd_append (off : Nat) (vs ws : List BufferView) :
    chainEnd off (vs ++ ws) = chainEnd (chainEnd off vs) ws := by
  induction vs generalizing off with
  | nil => rfl
  | cons v vs ih => simp [chainEnd, ih]

theorem chainEnd_eq_sum (off : Nat) (vs : List BufferView) :
    chainEnd off vs = off + (vs.map (fun v => v.byte_length)).sum := by
  induction vs generalizing off with
  | nil => simp [chainEnd]
  | cons v vs ih =>
    simp only [chainEnd, ih, List.map_cons, List.sum_cons]
    omega

theorem contiguousFrom_append {off : Nat} {vs ws : List BufferView}
    (h1 : contiguousFrom off vs = true) (h2 : contiguousFrom (chainEnd off vs) ws = true) :
    contiguousFrom off (vs ++ ws) = true := by
  induction vs generalizing off with
  | nil => exact h2
  | cons v vs ih =>
    simp only [contiguousFrom, Bool.and_eq_true] at h1 ⊢
    exact ⟨h1.1, ih h1.2 h2⟩

theorem write_one_mesh_views (m : Mesh) (h : Header) (off : Nat) :
    ∃ new : List BufferView,
      (write_one_mesh m h off).1.buffer_views = h.buffer_views ++ new ∧
      contiguousFrom off new = true ∧
      chainEnd off new = (write_one_mesh m h off).2 := by
  by_cases h1 : (compute_mesh_buffer_sizes m).2.2.1 > 0 <;>
    by_cases h2 : (compute_mesh_buffer_sizes m).2.2.2 > 0
  · refine ⟨[⟨off, (compute_mesh_buffer_sizes m).1, "VEC3_F32"⟩,
      ⟨off + (compute_mesh_buffer_sizes m).1, (compute_mesh_buffer_sizes m).2.1, "VEC3_U32"⟩,
      ⟨off + (compute_mesh_buffer_sizes m).1 + (compute_mesh_buffer_sizes m).2.1,
        (compute_mesh_buffer_sizes m).2.2.1, "VEC2_F32"⟩,
      ⟨off + (compute_mesh_buffer_sizes m).1 + (compute_mesh_buffer_sizes m).2.1 +
        (compute_mesh_buffer_sizes m).2.2.1, (compute_mesh_buffer_sizes m).2.2.2, "VEC3_F32"⟩],
      ?_, ?_, ?_⟩ <;>
      simp [write_one_mesh, h1, h2, contiguousFrom, chainEnd, List.append_assoc]
  · refine ⟨[⟨off, (compute_mesh_buffer_sizes m).1, "VEC3_F32"⟩,
      ⟨off + (compute_mesh_buffer_sizes m).1, (compute_mesh_buffer_sizes m).2.1, "VEC3_U32"⟩,
      ⟨off + (compute_mesh_buffer_sizes m).1 + (compute_mesh_buffer_sizes m).2.1,
        (compute_mesh_buffer_sizes m).2.2.1, "VEC2_F32"⟩], ?_, ?_, ?_⟩ <;>
      simp [write_one_mesh, h1, h2, contiguousFrom, chainEnd, List.append_assoc]
  · refine ⟨[⟨off, (compute_mesh_buffer_sizes m).1, "VEC3_F32"⟩,
      ⟨off + (compute_mesh_buffer_sizes m).1, (compute_mesh_buffer_sizes m).2.1, "VEC3_U32"⟩,
      ⟨off + (compute_mesh_buffer_sizes m).1 + (compute_mesh_buffer_sizes m).2.1,
        (compute_mesh_buffer_sizes m).2.2.2, "VEC3_F32"⟩], ?_, ?_, ?_⟩ <;>
      simp [write_one_mesh, h1, h2, contiguousFrom, chainEnd, List.append_assoc]
  · refine ⟨[⟨off, (compute_mesh_buffer_sizes m).1, "VEC3_F32"⟩,
      ⟨off + (compute_mesh_buffer_sizes m).1, (compute_mesh_buffer_sizes m).2.1, "VEC3_U32"⟩],
      ?_, ?_, ?_⟩ <;>
      simp [write_one_mesh, h1, h2, contiguousFrom, chainEnd, List.append_assoc]

theorem write_mesh_info_aux_views (meshes : List Mesh) :
    ∀ (h : Header) (off : Nat) (acc : List (String × Nat)) (s : Nat),
      contiguousFrom s h.buffer_views = true → chainEnd s h.buffer_views = off →
      contiguousFrom s (write_mesh_info_aux meshes h off acc).2.2.buffer_views = true ∧
      chainEnd s (write_mesh_info_aux meshes h off acc).2.2.buffer_views =
        (write_mesh_info_aux meshes h off acc).1 := by
  induction meshes with
  | nil =>
    intro h off acc s h1 h2
    exact ⟨h1, h2⟩
  | cons m rest ih =>
    intro h off acc s h1 h2
    simp only [write_mesh_info_aux]
    by_cases hu : m.users == 0
    · rw [if_pos hu]
      exact ih h off acc s h1 h2
    · rw [if_neg hu]
      obtain ⟨new, hbv, hcf, hce⟩ := write_one_mesh_views m h off
      apply ih
      · rw [hbv]
        exact contiguousFrom_append h1 (by rw [h2]; exact hcf)
      · rw [hbv, chainEnd_append, h2, hce]

theorem contiguous_snoc {s off len : Nat} {bv : List BufferView} {t : String}
    (h1 : contiguousFrom s bv = true) (h2 : chainEnd s bv = off) :
    contiguousFrom s (bv ++ [⟨off, len, t⟩]) = true ∧
    chainEnd s (bv ++ [⟨off, len, t⟩]) = off + len := by
  constructor
  · exact contiguousFrom_append h1 (by rw [h2]; simp [contiguousFrom, chainEnd])
  · rw [chainEnd_append, h2]
    simp [chainEnd]

theorem write_image_info_aux_views (images : List Image) :
    ∀ (h : Header) (off : Nat) (acc : List (String × Nat)) (s : Nat),
      contiguousFrom s h.buffer_views = true → chainEnd s h.buffer_views = off →
      contiguousFrom s (write_image_info_aux images h off acc).2.2.buffer_views = true ∧
      chainEnd s (write_image_info_aux images h off acc).2.2.buffer_views =
        (write_image_info_aux images h off acc).1 := by
  induction images with
  | nil =>
    intro h off acc s h1 h2
    exact ⟨h1, h2⟩
  | cons img rest ih =>
    intro h off acc s h1 h2
    simp only [write_image_info_aux]
    by_cases hu : img.users == 0
    · rw [if_pos hu]
      exact ih h off acc s h1 h2
    · rw [if_neg hu]
      by_cases hs : img.source != "FILE"
      · rw [if_pos hs]
        exact ih h off acc s h1 h2
      · rw [if_neg hs]
        cases hpf : img.packed_file with
        | some pf =>
          apply ih
          · exact (contiguous_snoc h1 h2).1
          · exact (contiguous_snoc h1 h2).2
        | none =>
          cases hdk : img.disk with
          | some bytes =>
            apply ih
            · exact (contiguous_snoc h1 h2).1
            · exact (contiguous_snoc h1 h2).2
          | none => exact ih h off acc s h1 h2

theorem write_material_info_aux_buffer_views (image_indices : List (String × Nat))
    (materials : List Material) :
    ∀ (h : Header) (acc acc' : List (String × Nat)) (h' : Header),
      write_material_info_aux image_indices materials h acc = .ok (acc', h') →
      h'.buffer_views = h.buffer_views := by
  induction materials with
  | nil =>
    intro h acc acc' h' he
    simp only [write_material_info_aux] at he
    cases he
    rfl
  | cons m rest ih =>
    intro h acc acc' h' he
    simp only [write_material_info_aux] at he
    by_cases hu : m.users == 0
    · rw [if_pos hu] at he
      exact ih h acc acc' h' he
    · rw [if_neg hu] at he
      cases hp : m.principled with
      | none =>
        simp only [hp] at he
        exact ih h acc acc' h' he
      | some inputs =>
        simp only [hp] at he
        cases hf : material_input_fields image_indices inputs [("name", MatField.str m.name)] with
        | error e =>
          simp only [hf] at he
          exact Except.noConfusion he
        | ok mat =>
          simp only [hf] at he
          have hres := ih _ _ acc' h' he
          exact hres

theorem write_object_info_buffer_views (objects : List SceneObject) :
    ∀ (h : Header) (material_indices mesh_indices : List (String × Nat)) (h' : Header),
      write_object_info objects h material_indices mesh_indices = .ok h' →
      h'.buffer_views = h.buffer_views := by
  induction objects with
  | nil =>
    intro h mi msi h' he
    simp only [write_object_info] at he
    cases he
    rfl
  | cons o rest ih =>
    intro h mi msi h' he
    simp only [write_object_info] at he
    cases ho : write_one_object o mi msi with
    | error e =>
      simp only [ho] at he
      exact Except.noConfusion he
    | ok od =>
      simp only [ho] at he
      cases od with
      | none => exact ih h mi msi h' he
      | some obj_data =>
        have hres := ih _ mi msi h' he
        exact hres

/-- C1: the planner (`write_mesh_info` / `write_image_info`) and the
payload writer disagree on which images contribute bytes: `sceneC1`
holds one used image with source `"MOVIE"` whose path names an existing
1-byte file.  The planner skips it (non-`FILE` source), declaring no
buffer view at all, yet the write pass — which never tests `img.source`
— emits its byte, so the header declares 0 payload bytes while the file
carries 1. -/
theorem image_writer_source_mismatch :
    export_crts sceneC1 = .finished ⟨⟨[], [], [], [], []⟩, [7]⟩ := rfl

/-- C2: with no uv layer, `normals_view = uvs_view + 1` evaluates to
`-1 + 1 = 0`, so the single mesh record of `sceneC2` cross-references
`"normals": 0` — the positions view — although its normals view was
appended at index 2 (byte range `[48, 84)`). -/
theorem mesh_normals_index_bug :
    export_crts sceneC2 = .finished ⟨⟨[⟨"tri", 0, 1, none, some 0⟩], [],
      [⟨0, 36, "VEC3_F32"⟩, ⟨36, 12, "VEC3_U32"⟩, ⟨48, 36, "VEC3_F32"⟩], [], []⟩,
      write_mesh_buffers meshC2⟩ := rfl

/-- C3 counterexample: the buffer views of an exported file are not
strictly increasing in `byte_offset`: a used zero-triangle mesh emits
two zero-length views that share byte offset 0. -/
theorem zero_length_views_share_offset :
    export_crts sceneC3 = .finished ⟨⟨[⟨"e", 0, 1, none, none⟩], [],
      [⟨0, 0, "VEC3_F32"⟩, ⟨0, 0, "VEC3_U32"⟩], [], []⟩, []⟩ := rfl

/-- C3 (amended): for every exported file the buffer views are produced
in non-decreasing, contiguous byte-offset order — view 0 starts at
offset 0 and each view starts exactly where the previous one ended
(strictness fails only for zero-length views, which repeat an offset;
see `zero_length_views_share_offset`) — and the planner's final running
offset equals the sum of all declared view byte lengths. -/
theorem buffer_views_contiguous (s : Scene) (f : CrtsFile)
    (h : export_crts s = .finished f) :
    contiguousFrom 0 f.header.buffer_views = true ∧
    (write_image_info s.images (write_mesh_info s.meshes ⟨[], [], [], [], []⟩ 0).2.2
        (write_mesh_info s.meshes ⟨[], [], [], [], []⟩ 0).1).1 =
      (f.header.buffer_views.map (fun v => v.byte_length)).sum := by
  unfold export_crts at h
  split at h
  · exact absurd h (by simp)
  · obtain ⟨c1, c2⟩ := write_mesh_info_aux_views s.meshes ⟨[], [], [], [], []⟩ 0 [] 0 rfl rfl
    obtain ⟨d1, d2⟩ := write_image_info_aux_views s.images
      (write_mesh_info_aux s.meshes ⟨[], [], [], [], []⟩ 0 []).2.2
      (write_mesh_info_aux s.meshes ⟨[], [], [], [], []⟩ 0 []).1 [] 0 c1 c2
    simp only [write_mesh_info, write_image_info] at h ⊢
    split at h
    · exact absurd h (by simp)
    · rename_i m3 hmw
      split at h
      · exact absurd h (by simp)
      · rename_i h4 hwo
        injection h with h'
        have hfh : f.header = h4 := by rw [← h']
        simp only [write_material_info] at hmw
        have hb1 := write_material_info_aux_buffer_views _ _ _ _ m3.1 m3.2 hmw
        have hb2 := write_object_info_buffer_views _ _ _ _ _ hwo
        rw [hfh, hb2, hb1]
        refine ⟨d1, ?_⟩
        rw [← d2, chainEnd_eq_sum]
        simp

theorem buffer_views_contiguous_witness :
    contiguousFrom 0 (CrtsFile.mk ⟨[], [], [⟨0, 1, "UINT_8"⟩], [],
        [⟨"i", 0, "PNG", "sRGB"⟩]⟩ [9]).header.buffer_views = true ∧
    (write_image_info sceneC3w.images
        (write_mesh_info sceneC3w.meshes ⟨[], [], [], [], []⟩ 0).2.2
        (write_mesh_info sceneC3w.meshes ⟨[], [], [], [], []⟩ 0).1).1 =
      ((CrtsFile.mk ⟨[], [], [⟨0, 1, "UINT_8"⟩], [],
        [⟨"i", 0, "PNG", "sRGB"⟩]⟩ [9]).header.buffer_views.map
          (fun v => v.byte_length)).sum :=
  buffer_views_contiguous sceneC3w
    ⟨⟨[], [], [⟨0, 1, "UINT_8"⟩], [], [⟨"i", 0, "PNG", "sRGB"⟩]⟩, [9]⟩ rfl

/-- C5 counterexample: corners 0 and 1 of `meshC5` carry uv values that
differ bit-for-bit (+0.0 vs -0.0 in the first component), yet the
deduplicator assigns them the same unique vertex id — Python float
equality merges them. -/
theorem dedup_merges_bit_distinct_zeros :
    meshC5.uv_layers = some [(fPz, fOne), (fNz, fOne), (fOne, fOne)] ∧
    uvAt [(fPz, fOne), (fNz, fOne), (fOne, fOne)] (meshC5.corners.getD 0 0) ≠
      uvAt [(fPz, fOne), (fNz, fOne), (fOne, fOne)] (meshC5.corners.getD 1 0) ∧
    (runDedup meshC5).vertex_indices.getD 0 0 = (runDedup meshC5).vertex_indices.getD 1 0 :=
  ⟨rfl, by decide, by decide⟩

theorem dedup_minimality_value_eq_witness :
    meshC5.noNaNB = true ∧ 0 < meshC5.corners.length ∧ 1 < meshC5.corners.length ∧
    ((runDedup meshC5).vertex_indices.getD 0 0 = (runDedup meshC5).vertex_indices.getD 1 0 ↔
      (meshC5.loops_vertex_index.getD (meshC5.corners.getD 0 0) 0 =
          meshC5.loops_vertex_index.getD (meshC5.corners.getD 1 0) 0 ∧
        (∀ d, meshC5.uv_layers = some d →
          pyEqUV (uvAt d (meshC5.corners.getD 0 0)) (uvAt d (meshC5.corners.getD 1 0)) = true) ∧
        pyEqN (nAt meshC5 (meshC5.corners.getD 0 0))
          (nAt meshC5 (meshC5.corners.getD 1 0)) = true)) :=
  ⟨by decide, by decide, by decide,
    dedup_minimality_value_eq meshC5 (by decide) 0 1 (by decide) (by decide)⟩

/-- C6 counterexample: a mesh with two assigned materials but zero users
does not trigger cancellation — the validation loop `continue`s past
zero-user meshes, and the export finishes, writing a file. -/
theorem zero_user_multi_material_not_cancelled :
    export_crts sceneC6 = .finished ⟨⟨[], [], [], [], []⟩, []⟩ := rfl

/-- C6 (amended): for any scene containing a mesh with at least one user
and 2 or more assigned materials, `export_crts` reports CANCELLED, as an
up-front validation pass that runs before any buffer planning and before
the output file is opened (the `cancelled` result carries no file).
Zero-user multi-material meshes are exempt
(`zero_user_multi_material_not_cancelled`). -/
theorem multi_material_cancelled (s : Scene)
    (h : ∃ m ∈ s.meshes, m.users ≠ 0 ∧ 1 < m.materials.length) :
    export_crts s = .cancelled := by
  have hc : (s.meshes.any fun m => !(m.users == 0) && decide (m.materials.length > 1)) = true := by
    obtain ⟨m, hm, h1, h2⟩ := h
    refine List.any_eq_true.mpr ⟨m, hm, ?_⟩
    simp [h1, h2]
  unfold export_crts
  rw [if_pos hc]

theorem multi_material_cancelled_witness : export_crts sceneC6w = .cancelled :=
  multi_material_cancelled sceneC6w (by decide)

/-- C7: a recoverable condition does raise — in `sceneC7` the only
material's "Roughness" input routes through a Separate-RGB node to an
image absent from `image_indices`; `write_material_info` evaluates
`image_indices[tex_info[0].name]` without a membership guard (unlike the
base-color branch) and the export aborts with a `KeyError` instead of
keeping the scalar default.  The analogous unguarded lookup
`material_indices[o.active_material.name]` in `write_object_info` raises
for a mesh object whose active material was skipped. -/
theorem scalar_texture_missing_image_raises :
    export_crts sceneC7 = .error "KeyError" := rfl

/-- C8 counterexample: a used mesh with a uv layer but zero loop
triangles produces a mesh record with no `texcoords` view — "present iff
the mesh has any uv layer" fails. -/
theorem uv_layer_zero_triangles_no_texcoords :
    meshC8.uv_layers.isSome = true ∧
    export_crts sceneC8 = .finished ⟨⟨[⟨"z", 0, 1, none, none⟩], [],
      [⟨0, 0, "VEC3_F32"⟩, ⟨0, 0, "VEC3_U32"⟩], [], []⟩, []⟩ :=
  ⟨rfl, rfl⟩

theorem uvs_size_pos_iff (m : Mesh) :
    0 < (compute_mesh_buffer_sizes m).2.2.1 ↔
      (m.uv_layers.isSome = true ∧ m.loop_triangles ≠ []) := by
  have hred : (compute_mesh_buffer_sizes m).2.2.1 =
      (if (runDedup m).uvs.length > 0
        then (runDedup m).unique_verts.length * 2 * 4 else 0) := rfl
  rw [hred]
  constructor
  · intro h
    by_cases hl : (runDedup m).uvs.length > 0
    · constructor
      · cases hm : m.uv_layers with
        | none =>
          have hnil := (dinv_run m).uv_nil hm
          rw [hnil] at hl
          simp at hl
        | some d => rfl
      · intro ht
        rw [runDedup_no_tris m ht] at hl
        simp [DedupState.init] at hl
    · rw [if_neg hl] at h
      exact absurd h (by simp)
  · rintro ⟨h1, h2⟩
    cases hm : m.uv_layers with
    | none =>
      rw [hm] at h1
      simp at h1
    | some d =>
      have hu : 0 < (runDedup m).uvs.length := runDedup_uvs_pos m d hm h2
      have hn : 0 < (runDedup m).unique_verts.length := runDedup_unique_pos m h2
      rw [if_pos hu]
      omega

theorem write_one_mesh_meshes (m : Mesh) (h : Header) (off : Nat) :
    ∃ r : MeshInfo, (write_one_mesh m h off).1.meshes = h.meshes ++ [r] ∧ r.name = m.name ∧
      (r.texcoords.isSome = true ↔ 0 < (compute_mesh_buffer_sizes m).2.2.1) := by
  have hnn : ((h.buffer_views.length : Int) + 1 + 1 != -1) = true := by
    simp only [bne_iff_ne, ne_eq]
    omega
  have hnn2 : ((h.buffer_views.length : Int) + 1 + 1 + 1 != -1) = true := by
    simp only [bne_iff_ne, ne_eq]
    omega
  by_cases h1 : (compute_mesh_buffer_sizes m).2.2.1 > 0 <;>
    by_cases h2 : (compute_mesh_buffer_sizes m).2.2.2 > 0
  · exact ⟨⟨m.name, (h.buffer_views.length : Int), (h.buffer_views.length : Int) + 1,
      some ((h.buffer_views.length : Int) + 1 + 1),
      some ((h.buffer_views.length : Int) + 1 + 1 + 1)⟩,
      by simp [write_one_mesh, h1, h2, hnn, hnn2], rfl, by simp [h1]⟩
  · exact ⟨⟨m.name, (h.buffer_views.length : Int), (h.buffer_views.length : Int) + 1,
      some ((h.buffer_views.length : Int) + 1 + 1), none⟩,
      by simp [write_one_mesh, h1, h2, hnn], rfl, by simp [h1]⟩
  · exact ⟨⟨m.name, (h.buffer_views.length : Int), (h.buffer_views.length : Int) + 1,
      none, some 0⟩,
      by simp [write_one_mesh, h1, h2], rfl, by simp [h1]⟩
  · exact ⟨⟨m.name, (h.buffer_views.length : Int), (h.buffer_views.length : Int) + 1,
      none, none⟩,
      by simp [write_one_mesh, h1, h2], rfl, by simp [h1]⟩

theorem write_one_mesh_zero_tris (m : Mesh) (h : Header) (off : Nat)
    (ht : m.loop_triangles = []) :
    write_one_mesh m h off =
      ({h with
          buffer_views := h.buffer_views ++ [⟨off, 0, "VEC3_F32"⟩, ⟨off, 0, "VEC3_U32"⟩]
          meshes := h.meshes ++ [⟨m.name, (h.buffer_views.length : Int),
            (h.buffer_views.length : Int) + 1, none, none⟩]}, off) := by
  have hsz : compute_mesh_buffer_sizes m = (0, 0, 0, 0) := by
    unfold compute_mesh_buffer_sizes
    rw [runDedup_no_tris m ht, ht]
    rfl
  simp [write_one_mesh, hsz]

theorem write_mesh_info_aux_meshes_extend (meshes : List Mesh) :
    ∀ (h : Header) (off : Nat) (acc : List (String × Nat)),
      ∃ tail, (write_mesh_info_aux meshes h off acc).2.2.meshes = h.meshes ++ tail := by
  induction meshes with
  | nil =>
    intro h off acc
    exact ⟨[], by simp [write_mesh_info_aux]⟩
  | cons m rest ih =>
    intro h off acc
    simp only [write_mesh_info_aux]
    by_cases hu : m.users == 0
    · rw [if_pos hu]
      exact ih h off acc
    · rw [if_neg hu]
      obtain ⟨r, hr, hname, _⟩ := write_one_mesh_meshes m h off
      obtain ⟨tail, htail⟩ := ih (write_one_mesh m h off).1 (write_one_mesh m h off).2
        (acc ++ [(m.name, h.meshes.length)])
      exact ⟨[r] ++ tail, by rw [htail, hr, List.append_assoc]⟩

theorem write_mesh_info_aux_mesh_present (meshes : List Mesh) :
    ∀ (h : Header) (off : Nat) (acc : List (String × Nat)) (m : Mesh),
      m ∈ meshes → m.users ≠ 0 →
      ∃ r ∈ (write_mesh_info_aux meshes h off acc).2.2.meshes, r.name = m.name := by
  induction meshes with
  | nil =>
    intro h off acc m hm
    simp at hm
  | cons m0 rest ih =>
    intro h off acc m hm hu
    simp only [write_mesh_info_aux]
    rcases List.mem_cons.mp hm with heq | hmem
    · subst heq
      rw [if_neg (by simpa using hu)]
      obtain ⟨r, hr, hname, _⟩ := write_one_mesh_meshes m h off
      obtain ⟨tail, htail⟩ := write_mesh_info_aux_meshes_extend rest
        (write_one_mesh m h off).1 (write_one_mesh m h off).2 (acc ++ [(m.name, h.meshes.length)])
      refine ⟨r, ?_, hname⟩
      rw [htail, hr]
      simp
    · by_cases hu0 : m0.users == 0
      · rw [if_pos hu0]
        exact ih h off acc m hmem hu
      · rw [if_neg hu0]
        exact ih _ _ _ m hmem hu

/-- C8 (amended): for every mesh with at least one user (the meshes the
`write_mesh_info` loop hands to `write_one_mesh`): a mesh with zero loop
triangles still yields zero-length positions and indices buffer views
and a mesh record (with no texcoords or normals keys, and no error);
every written mesh contributes exactly one record which survives into
the final header; and a texcoords view is present iff the mesh has a uv
layer AND at least one loop triangle (a uv layer alone is not enough,
see `uv_layer_zero_triangles_no_texcoords`). -/
theorem zero_triangle_mesh_record :
    (∀ (m : Mesh) (h : Header) (off : Nat),
      ∃ r : MeshInfo, (write_one_mesh m h off).1.meshes = h.meshes ++ [r] ∧ r.name = m.name ∧
        (r.texcoords.isSome = true ↔ (m.uv_layers.isSome = true ∧ m.loop_triangles ≠ []))) ∧
    (∀ (m : Mesh) (h : Header) (off : Nat), m.loop_triangles = [] →
      write_one_mesh m h off =
        ({h with
            buffer_views := h.buffer_views ++ [⟨off, 0, "VEC3_F32"⟩, ⟨off, 0, "VEC3_U32"⟩]
            meshes := h.meshes ++ [⟨m.name, (h.buffer_views.length : Int),
              (h.buffer_views.length : Int) + 1, none, none⟩]}, off)) ∧
    (∀ (meshes : List Mesh) (h : Header) (off : Nat) (acc : List (String × Nat)) (m : Mesh),
      m ∈ meshes → m.users ≠ 0 →
      ∃ r ∈ (write_mesh_info_aux meshes h off acc).2.2.meshes, r.name = m.name) := by
  refine ⟨?_, write_one_mesh_zero_tris, write_mesh_info_aux_mesh_present⟩
  intro m h off
  obtain ⟨r, hr, hname, hiff⟩ := write_one_mesh_meshes m h off
  exact ⟨r, hr, hname, hiff.trans (uvs_size_pos_iff m)⟩

theorem zero_triangle_mesh_record_witness :
    write_one_mesh meshC8 emptyHeader 0 =
      ({emptyHeader with
          buffer_views := emptyHeader.buffer_views ++ [⟨0, 0, "VEC3_F32"⟩, ⟨0, 0, "VEC3_U32"⟩]
          meshes := emptyHeader.meshes ++ [⟨meshC8.name, (emptyHeader.buffer_views.length : Int),
            (emptyHeader.buffer_views.length : Int) + 1, none, none⟩]}, 0) ∧
    (∃ r ∈ (write_mesh_info_aux [meshC8] emptyHeader 0 []).2.2.meshes, r.name = meshC8.name) :=
  ⟨zero_triangle_mesh_record.2.1 meshC8 emptyHeader 0 rfl,
   zero_triangle_mesh_record.2.2 [meshC8] emptyHeader 0 [] meshC8
     (List.mem_singleton.mpr rfl) (by decide)⟩

/-- C9: Matrix convention — for every object, the emitted 16-element
array (the explicit `tfm[0][0] .. tfm[3][3]` listing of the source)
equals the transpose of the -90-degree X rotation composed before the
object's world transform, flattened row by row; for the identity world
transform it is the literal flattened transposed rotation matrix. -/
theorem object_matrix_convention :
    (∀ world : Matrix (Fin 4) (Fin 4) ℚ,
      object_matrix_list world = flattenRows (rotNeg90X * world).transpose) ∧
    object_matrix_list 1 = [1, 0, 0, 0, 0, 0, -1, 0, 0, 1, 0, 0, 0, 0, 0, 1] := by
  constructor
  · intro world
    rfl
  · simp [object_matrix_list, object_tfm, rotNeg90X, Matrix.mul_one, Matrix.transpose_apply,
      Matrix.vecHead, Matrix.vecTail]

/-- C10: the light energy computation divides `light.energy` by
`light.size * light.size_y` with no guard: for a LIGHT object with
nonzero emitting area the record carries exactly
`energy / (size * size_y)` and no error is possible on that branch,
while zero size in either dimension raises `ZeroDivisionError`, which
propagates out of the object walk and aborts the export. -/
theorem light_energy_normalization (name : String) (W : Matrix (Fin 4) (Fin 4) ℚ)
    (l : LightData) (material_indices mesh_indices : List (String × Nat)) :
    (l.size * l.size_y ≠ 0 →
      write_one_object ⟨name, .light l, W⟩ material_indices mesh_indices =
        .ok (some ⟨name, "LIGHT", object_matrix_list W, none, none, some l.color,
          some (l.energy / (l.size * l.size_y)), some (l.size, l.size_y), none⟩)) ∧
    ((l.size = 0 ∨ l.size_y = 0) →
      write_one_object ⟨name, .light l, W⟩ material_indices mesh_indices =
        .error "ZeroDivisionError") := by
  constructor
  · intro h
    unfold write_one_object
    dsimp only [SceneObject.typeName]
    rw [if_neg h]
  · intro h
    have hz : l.size * l.size_y = 0 := by
      rcases h with h | h <;> rw [h] <;> ring
    unfold write_one_object
    dsimp only [SceneObject.typeName]
    rw [if_pos hz]

theorem light_energy_normalization_witness :
    (6 : ℚ) * 1 ≠ 0 ∧
    write_one_object ⟨"L", .light ⟨"AREA", (1, 1, 1), 5, 6, 1⟩, 1⟩ [] [] =
      .ok (some ⟨"L", "LIGHT", object_matrix_list 1, none, none, some (1, 1, 1),
        some ((5 : ℚ) / (6 * 1)), some (6, 1), none⟩) :=
  ⟨by norm_num,
    (light_energy_normalization "L" 1 ⟨"AREA", (1, 1, 1), 5, 6, 1⟩ [] []).1 (by norm_num)⟩
